import Mathlib

/-!
Verification of the job-queue-and-lease subsystem of the
GuruMCP-Freshservice bridge (`lib/queue.js`, the worker driver in
`api/worker`, and the webhook producer `api/freshservice-webhook.js`).

The JavaScript is shallowly embedded: JavaScript values that can sit in
the shared key-value store are modelled by the inductive `JsVal`;
`JSON.stringify` / `JSON.parse` are modelled by an executable printer
and parser over `JsVal` (JSON numbers are modelled as integers, which
covers every value this system serialises — ids, timestamps, flags;
fractional and exponent literals are rejected by the modelled parser,
and `\u` escapes outside the valid scalar range decode to the null
character since Lean `Char` carries scalar values only).  The store
itself is a record of the queue list, the lock map and the done map,
with TTL expiry made explicit through a `now : Nat` clock parameter.
Effectful functions are embedded as state-passing functions that
additionally record the trace of store operations they perform.
-/

namespace GuruFS

mutual

/-- A JavaScript value as it can appear in the key-value store or in a
request body: `null`, booleans, numbers (modelled as integers), strings,
arrays and objects.  An object is its ordered list of key/value pairs
(a real JS object never has duplicate keys). -/
inductive JsVal where
  | jnull : JsVal
  | jbool (b : Bool) : JsVal
  | jnum (n : Int) : JsVal
  | jstr (s : String) : JsVal
  | jarr (elems : JsItems) : JsVal
  | jobj (fields : JsMembers) : JsVal
deriving DecidableEq

/-- The elements of a JS array, as a bespoke list (mutual with `JsVal`). -/
inductive JsItems where
  | nil : JsItems
  | cons (hd : JsVal) (tl : JsItems) : JsItems
deriving DecidableEq

/-- The members of a JS object: ordered key/value pairs. -/
inductive JsMembers where
  | nil : JsMembers
  | cons (key : String) (val : JsVal) (tl : JsMembers) : JsMembers
deriving DecidableEq

end

namespace JsVal

/-- JavaScript truthiness test: `null`, `false`, `0` and `""` are falsy
(`!raw` in the source). -/
def falsy : JsVal → Bool
  | jnull => true
  | jbool b => !b
  | jnum n => n == 0
  | jstr s => s == ""
  | jarr _ => false
  | jobj _ => false

/-- `typeof v === "string"`. -/
def isString : JsVal → Bool
  | jstr _ => true
  | _ => false

/-- `typeof v === "object"`: true for objects, arrays and `null`. -/
def isObjectType : JsVal → Bool
  | jobj _ => true
  | jarr _ => true
  | jnull => true
  | _ => false

end JsVal

/-- Lookup of `key` among object members (first match, as in a real JS
object whose keys are unique). -/
def JsMembers.find? : JsMembers → String → Option JsVal
  | .nil, _ => none
  | .cons k v tl, key => if k = key then some v else tl.find? key

/-- Property access `v[key]`: `some` value when `v` is an object that
has the key, `none` (JS `undefined`) otherwise. -/
def JsVal.jget (v : JsVal) (key : String) : Option JsVal :=
  match v with
  | .jobj fields => fields.find? key
  | _ => none

/-! ### `JSON.stringify` (the printer) -/

/-- Hexadecimal digit character for `k < 16` (lower case). -/
def hexDig (k : Nat) : Char :=
  if k < 10 then Char.ofNat (48 + k) else Char.ofNat (97 + (k - 10))

/-- How `JSON.stringify` escapes one character inside a string literal:
`"` and `\` get a backslash, the five named control escapes are used,
all other control characters become `\u00XX`, everything else is
emitted literally. -/
def escJsonChar (c : Char) : List Char :=
  if c = Char.ofNat 34 then [Char.ofNat 92, Char.ofNat 34]
  else if c = Char.ofNat 92 then [Char.ofNat 92, Char.ofNat 92]
  else if c = Char.ofNat 8 then [Char.ofNat 92, 'b']
  else if c = Char.ofNat 12 then [Char.ofNat 92, 'f']
  else if c = Char.ofNat 10 then [Char.ofNat 92, 'n']
  else if c = Char.ofNat 13 then [Char.ofNat 92, 'r']
  else if c = Char.ofNat 9 then [Char.ofNat 92, 't']
  else if c.toNat < 32 then
    [Char.ofNat 92, 'u', '0', '0', hexDig (c.toNat / 16), hexDig (c.toNat % 16)]
  else [c]

/-- The body of a printed JSON string literal. -/
def escJsonStr (s : List Char) : List Char := s.flatMap escJsonChar

/-- Decimal digits of a natural number, most significant first. -/
def natDigs (n : Nat) : List Char :=
  if _h : n < 10 then [Char.ofNat (48 + n)]
  else natDigs (n / 10) ++ [Char.ofNat (48 + n % 10)]
decreasing_by exact Nat.div_lt_self (by omega) (by omega)

/-- Decimal notation of an integer, as `JSON.stringify` prints it. -/
def intChars (n : Int) : List Char :=
  if n < 0 then '-' :: natDigs ((-n).toNat) else natDigs n.toNat

mutual

/-- `JSON.stringify` on a `JsVal`, as a character list. -/
def printJson : JsVal → List Char
  | .jnull => ['n', 'u', 'l', 'l']
  | .jbool true => ['t', 'r', 'u', 'e']
  | .jbool false => ['f', 'a', 'l', 's', 'e']
  | .jnum n => intChars n
  | .jstr s => Char.ofNat 34 :: (escJsonStr s.data ++ [Char.ofNat 34])
  | .jarr l => '[' :: (printItems l ++ [']'])
  | .jobj l => Char.ofNat 123 :: (printMembers l ++ [Char.ofNat 125])

/-- Comma-separated printed array elements. -/
def printItems : JsItems → List Char
  | .nil => []
  | .cons v .nil => printJson v
  | .cons v tl => printJson v ++ ',' :: printItems tl

/-- Comma-separated printed object members, `"key":value` each. -/
def printMembers : JsMembers → List Char
  | .nil => []
  | .cons k v .nil =>
    Char.ofNat 34 :: (escJsonStr k.data ++ Char.ofNat 34 :: ':' :: printJson v)
  | .cons k v tl =>
    Char.ofNat 34 :: (escJsonStr k.data ++ Char.ofNat 34 :: ':' :: printJson v)
      ++ ',' :: printMembers tl

end

/-- `JSON.stringify` as a Lean `String`. -/
def stringifyJson (v : JsVal) : String := String.mk (printJson v)

/-! ### `JSON.parse` (the parser)

A recursive-descent parser for JSON over `List Char`.  Nesting is
bounded by an explicit fuel argument (chosen large enough for any
input in `jsonParse`); every other recursion is structural.  Numbers
are restricted to integer literals (fraction/exponent parts are
rejected), matching the integer number model of `JsVal`. -/

/-- JSON insignificant whitespace. -/
def isJsonWs (c : Char) : Bool :=
  c = Char.ofNat 32 || c = Char.ofNat 9 || c = Char.ofNat 10 || c = Char.ofNat 13

/-- Drop leading JSON whitespace. -/
def skipWs : List Char → List Char
  | [] => []
  | c :: cs => if isJsonWs c then skipWs cs else c :: cs

/-- Strip an expected literal character sequence. -/
def stripChars : List Char → List Char → Option (List Char)
  | [], cs => some cs
  | p :: ps, c :: cs => if c = p then stripChars ps cs else none
  | _ :: _, [] => none

/-- Value of one hexadecimal digit character. -/
def hexVal (c : Char) : Option Nat :=
  if 48 ≤ c.toNat ∧ c.toNat ≤ 57 then some (c.toNat - 48)
  else if 97 ≤ c.toNat ∧ c.toNat ≤ 102 then some (c.toNat - 87)
  else if 65 ≤ c.toNat ∧ c.toNat ≤ 70 then some (c.toNat - 55)
  else none

/-- Single-character string escapes (`\"`, `\\`, `\/`, `\b`, `\f`,
`\n`, `\r`, `\t`). -/
def escCharOf (e : Char) : Option Char :=
  if e = Char.ofNat 34 then some (Char.ofNat 34)
  else if e = Char.ofNat 92 then some (Char.ofNat 92)
  else if e = '/' then some '/'
  else if e = 'b' then some (Char.ofNat 8)
  else if e = 'f' then some (Char.ofNat 12)
  else if e = 'n' then some (Char.ofNat 10)
  else if e = 'r' then some (Char.ofNat 13)
  else if e = 't' then some (Char.ofNat 9)
  else none

/-- Parse the body of a JSON string literal (after the opening quote),
returning its characters and the input after the closing quote. -/
def parseStrBody : List Char → Option (List Char × List Char)
  | [] => none
  | c :: cs =>
    if c = Char.ofNat 34 then some ([], cs)
    else if c = Char.ofNat 92 then
      match cs with
      | [] => none
      | e :: cs' =>
        if e = 'u' then
          match cs' with
          | h1 :: h2 :: h3 :: h4 :: cs'' =>
            match hexVal h1, hexVal h2, hexVal h3, hexVal h4 with
            | some a, some b, some c3, some d =>
              (parseStrBody cs'').map
                (fun br => (Char.ofNat (((a * 16 + b) * 16 + c3) * 16 + d) :: br.1, br.2))
            | _, _, _, _ => none
          | _ => none
        else
          match escCharOf e with
          | some c' => (parseStrBody cs').map (fun br => (c' :: br.1, br.2))
          | none => none
    else (parseStrBody cs).map (fun br => (c :: br.1, br.2))

/-- Numeric value of a digit string, most significant first. -/
def digsToNat (ds : List Char) : Nat :=
  ds.foldl (fun a c => a * 10 + (c.toNat - 48)) 0

/-- Parse an unsigned JSON integer literal: one or more digits, no
leading zero (unless the number is exactly `0`), not followed by a
fraction or exponent part. -/
def parseNatNum (cs : List Char) : Option (Nat × List Char) :=
  let ds := cs.takeWhile Char.isDigit
  let rest := cs.dropWhile Char.isDigit
  if ds = [] then none
  else if 1 < ds.length ∧ ds.head? = some (Char.ofNat 48) then none
  else
    match rest with
    | c :: _ => if c = '.' ∨ c = 'e' ∨ c = 'E' then none else some (digsToNat ds, rest)
    | [] => some (digsToNat ds, [])

/-- Parse a JSON integer literal with optional leading minus sign. -/
def parseNum : List Char → Option (Int × List Char)
  | [] => none
  | c :: rest =>
    if c = '-' then (parseNatNum rest).map (fun nr => (-(nr.1 : Int), nr.2))
    else (parseNatNum (c :: rest)).map (fun nr => ((nr.1 : Int), nr.2))

mutual

/-- Parse one JSON value (leading whitespace allowed); `fuel` bounds
the nesting depth. -/
def parseVal : Nat → List Char → Option (JsVal × List Char)
  | 0, _ => none
  | fuel + 1, cs =>
    match skipWs cs with
    | [] => none
    | c :: rest =>
      if c = 'n' then (stripChars ['u', 'l', 'l'] rest).map (fun r => (.jnull, r))
      else if c = 't' then (stripChars ['r', 'u', 'e'] rest).map (fun r => (.jbool true, r))
      else if c = 'f' then
        (stripChars ['a', 'l', 's', 'e'] rest).map (fun r => (.jbool false, r))
      else if c = Char.ofNat 34 then
        (parseStrBody rest).map (fun br => (.jstr (String.mk br.1), br.2))
      else if c = '[' then
        match skipWs rest with
        | ']' :: r => some (.jarr .nil, r)
        | cs' => (parseItems fuel cs').map (fun lr => (.jarr lr.1, lr.2))
      else if c = Char.ofNat 123 then
        match skipWs rest with
        | d :: r =>
          if d = Char.ofNat 125 then some (.jobj .nil, r)
          else (parseMembers fuel (d :: r)).map (fun lr => (.jobj lr.1, lr.2))
        | [] => none
      else if c = '-' ∨ c.isDigit then
        (parseNum (c :: rest)).map (fun nr => (.jnum nr.1, nr.2))
      else none

/-- Parse one or more comma-separated array elements followed by `]`. -/
def parseItems : Nat → List Char → Option (JsItems × List Char)
  | 0, _ => none
  | fuel + 1, cs => do
    let (v, r) ← parseVal fuel cs
    match skipWs r with
    | ',' :: r' => (parseItems fuel r').map (fun lr => (.cons v lr.1, lr.2))
    | ']' :: r' => some (.cons v .nil, r')
    | _ => none

/-- Parse one or more comma-separated `"key":value` members followed
by `}`. -/
def parseMembers : Nat → List Char → Option (JsMembers × List Char)
  | 0, _ => none
  | fuel + 1, cs =>
    match skipWs cs with
    | c :: rest =>
      if c = Char.ofNat 34 then do
        let (k, r1) ← parseStrBody rest
        match skipWs r1 with
        | ':' :: r2 => do
          let (v, r3) ← parseVal fuel r2
          match skipWs r3 with
          | ',' :: r4 => (parseMembers fuel r4).map (fun lr => (.cons (String.mk k) v lr.1, lr.2))
          | d :: r4 =>
            if d = Char.ofNat 125 then some (.cons (String.mk k) v .nil, r4) else none
          | [] => none
        | _ => none
      else none
    | [] => none

end

/-- `JSON.parse` on a string: parse one value, then require only
whitespace to remain; `none` models a thrown `SyntaxError`.  The fuel
`2 * length + 2` dominates the nesting depth of any parseable input. -/
def jsonParse (s : String) : Option JsVal :=
  match parseVal (2 * s.length + 2) s.data with
  | some (v, rest) => if skipWs rest = [] then some v else none
  | none => none

/-! ### Round-trip: the parser inverts the printer -/

theorem takeWhile_append_all {α : Type} {p : α → Bool} :
    ∀ (xs ys : List α), (∀ c ∈ xs, p c) → (∀ c, ys.head? = some c → ¬ p c) →
      (xs ++ ys).takeWhile p = xs ∧ (xs ++ ys).dropWhile p = ys := by
  intro xs ys h1 h2
  induction xs with
  | nil =>
    simp only [List.nil_append]
    cases ys with
    | nil => simp [List.takeWhile, List.dropWhile]
    | cons y ys' =>
      have hy : ¬ p y := h2 y rfl
      simp [List.takeWhile, List.dropWhile, hy]
  | cons x xs' ih =>
    have hx : p x = true := h1 x (by simp)
    have ih' := ih (fun c hc => h1 c (by simp [hc]))
    simp [List.takeWhile, List.dropWhile, hx, ih'.1, ih'.2]

theorem natDigs_lt (n : Nat) (h : n < 10) : natDigs n = [Char.ofNat (48 + n)] := by
  rw [natDigs]
  simp [h]

theorem natDigs_ge (n : Nat) (h : ¬ n < 10) :
    natDigs n = natDigs (n / 10) ++ [Char.ofNat (48 + n % 10)] := by
  rw [natDigs]
  simp [h]

theorem digitChar_isDigit (d : Nat) (h : d < 10) : (Char.ofNat (48 + d)).isDigit := by
  interval_cases d <;> decide

theorem natDigs_all_digits (n : Nat) : ∀ c ∈ natDigs n, c.isDigit := by
  induction n using Nat.strong_induction_on with
  | _ n ih =>
    by_cases h : n < 10
    · rw [natDigs_lt n h]
      intro c hc
      simp at hc
      subst hc
      exact digitChar_isDigit n h
    · rw [natDigs_ge n h]
      intro c hc
      rcases List.mem_append.mp hc with h1 | h2
      · exact ih (n / 10) (Nat.div_lt_self (by omega) (by omega)) c h1
      · simp at h2
        subst h2
        exact digitChar_isDigit (n % 10) (Nat.mod_lt _ (by omega))

theorem natDigs_ne_nil (n : Nat) : natDigs n ≠ [] := by
  by_cases h : n < 10
  · rw [natDigs_lt n h]; simp
  · rw [natDigs_ge n h]; simp

theorem natDigs_head_ne_zero (n : Nat) (h : 1 ≤ n) :
    ∀ c, (natDigs n).head? = some c → c ≠ Char.ofNat 48 := by
  induction n using Nat.strong_induction_on with
  | _ n ih =>
    by_cases h10 : n < 10
    · rw [natDigs_lt n h10]
      intro c hc
      simp at hc
      subst hc
      intro hcontra
      have h1 : (Char.ofNat (48 + n)).toNat = 48 + n := by
        interval_cases n <;> decide
      have h2 : (Char.ofNat 48).toNat = 48 := by decide
      rw [hcontra, h2] at h1
      omega
    · intro c hc hcontra
      rw [natDigs_ge n h10] at hc
      have hh : (natDigs (n / 10)).head? = some c := by
        rcases hnil : natDigs (n / 10) with _ | ⟨c0, cs0⟩
        · exact absurd hnil (natDigs_ne_nil _)
        · rw [hnil] at hc
          simpa using hc
      exact ih (n / 10) (Nat.div_lt_self (by omega) (by omega)) (by omega) c hh hcontra

theorem digsToNat_append_digit (xs : List Char) (c : Char) :
    digsToNat (xs ++ [c]) = 10 * digsToNat xs + (c.toNat - 48) := by
  simp [digsToNat, List.foldl_append]
  ring

theorem digsToNat_natDigs (n : Nat) : digsToNat (natDigs n) = n := by
  induction n using Nat.strong_induction_on with
  | _ n ih =>
    by_cases h : n < 10
    · rw [natDigs_lt n h]
      simp [digsToNat]
      interval_cases n <;> decide
    · rw [natDigs_ge n h, digsToNat_append_digit,
        ih (n / 10) (Nat.div_lt_self (by omega) (by omega))]
      have h1 : (Char.ofNat (48 + n % 10)).toNat = 48 + n % 10 := by
        have : n % 10 < 10 := Nat.mod_lt _ (by omega)
        interval_cases hm : n % 10 <;> decide
      rw [h1]
      omega

/-- The characters that may legally follow a printed number without
extending it: not a digit and not a fraction/exponent introducer. -/
def numDelim (cs : List Char) : Prop :=
  ∀ c, cs.head? = some c → ¬(c.isDigit ∨ c = '.' ∨ c = 'e' ∨ c = 'E')

theorem isDigit_toNat {c : Char} (h : c.isDigit) : 48 ≤ c.toNat ∧ c.toNat ≤ 57 := by
  simp [Char.isDigit] at h
  exact ⟨h.1, h.2⟩

theorem natDigs_head_digit (n : Nat) : ∃ c cs, natDigs n = c :: cs ∧ c.isDigit := by
  rcases hd : natDigs n with _ | ⟨c, cs⟩
  · exact absurd hd (natDigs_ne_nil n)
  · exact ⟨c, cs, rfl, natDigs_all_digits n c (by rw [hd]; simp)⟩

theorem parseNatNum_natDigs (n : Nat) (rest : List Char) (h : numDelim rest) :
    parseNatNum (natDigs n ++ rest) = some (n, rest) := by
  have hrest : ∀ c, rest.head? = some c → ¬ (Char.isDigit c = true) := by
    intro c hc hp
    exact h c hc (Or.inl hp)
  obtain ⟨ht, hd⟩ := takeWhile_append_all (natDigs n) rest (natDigs_all_digits n) hrest
  have hne := natDigs_ne_nil n
  have hlz : ¬(1 < (natDigs n).length ∧ (natDigs n).head? = some (Char.ofNat 48)) := by
    rintro ⟨hlen, hhead⟩
    by_cases h10 : n < 10
    · rw [natDigs_lt n h10] at hlen
      simp at hlen
    · exact natDigs_head_ne_zero n (by omega) _ hhead rfl
  unfold parseNatNum
  simp only [ht, hd]
  rw [if_neg hne, if_neg hlz]
  rcases hr : rest with _ | ⟨c, cs⟩
  · simp [digsToNat_natDigs]
  · have hc := h c (by rw [hr]; rfl)
    have hc' : ¬(c = '.' ∨ c = 'e' ∨ c = 'E') := by tauto
    simp [hc', digsToNat_natDigs]

theorem parseNum_intChars (n : Int) (rest : List Char) (h : numDelim rest) :
    parseNum (intChars n ++ rest) = some (n, rest) := by
  unfold intChars
  by_cases hneg : n < 0
  · rw [if_pos hneg]
    show parseNum ('-' :: (natDigs (-n).toNat ++ rest)) = _
    simp only [parseNum, if_pos, parseNatNum_natDigs _ _ h, Option.map_some]
    have : ((-n).toNat : Int) = -n := Int.toNat_of_nonneg (by omega)
    simp [this]
  · rw [if_neg hneg]
    obtain ⟨c, cs, hcons, hdigc⟩ := natDigs_head_digit n.toNat
    rw [hcons, List.cons_append]
    have hcm : c ≠ '-' := by
      intro hcm
      rw [hcm] at hdigc
      exact absurd hdigc (by decide)
    show (if c = '-' then _ else Option.map (fun nr => ((nr.1 : Int), nr.2))
      (parseNatNum (c :: (cs ++ rest)))) = _
    rw [if_neg hcm, ← List.cons_append, ← hcons, parseNatNum_natDigs _ _ h]
    simp [Int.toNat_of_nonneg (show (0 : Int) ≤ n by omega)]

theorem hexVal_hexDig : ∀ k, k < 16 → hexVal (hexDig k) = some k := by decide

theorem escJsonStr_cons (c : Char) (s : List Char) :
    escJsonStr (c :: s) = escJsonChar c ++ escJsonStr s := by
  simp [escJsonStr]

theorem escJsonStr_nil : escJsonStr [] = [] := rfl

theorem parseStrBody_quote (cs : List Char) :
    parseStrBody (Char.ofNat 34 :: cs) = some ([], cs) := by
  rw [parseStrBody.eq_def]
  simp

theorem parseStrBody_escape (e c' : Char) (cs : List Char) (he : e ≠ 'u')
    (hesc : escCharOf e = some c') :
    parseStrBody (Char.ofNat 92 :: e :: cs) =
      (parseStrBody cs).map (fun br => (c' :: br.1, br.2)) := by
  rw [parseStrBody.eq_def]
  simp [he, hesc]

theorem parseStrBody_lit (c : Char) (cs : List Char) (h34 : c ≠ Char.ofNat 34)
    (h92 : c ≠ Char.ofNat 92) :
    parseStrBody (c :: cs) = (parseStrBody cs).map (fun br => (c :: br.1, br.2)) := by
  rw [parseStrBody.eq_def]
  simp [h34, h92]

theorem parseStrBody_unicode (h1 h2 h3 h4 : Char) (a b c3 d : Nat) (cs : List Char)
    (hv1 : hexVal h1 = some a) (hv2 : hexVal h2 = some b)
    (hv3 : hexVal h3 = some c3) (hv4 : hexVal h4 = some d) :
    parseStrBody (Char.ofNat 92 :: 'u' :: h1 :: h2 :: h3 :: h4 :: cs) =
      (parseStrBody cs).map
        (fun br => (Char.ofNat (((a * 16 + b) * 16 + c3) * 16 + d) :: br.1, br.2)) := by
  rw [parseStrBody.eq_def]
  simp [hv1, hv2, hv3, hv4]

theorem parseStrBody_esc : ∀ (s rest : List Char),
    parseStrBody (escJsonStr s ++ Char.ofNat 34 :: rest) = some (s, rest) := by
  intro s
  induction s with
  | nil =>
    intro rest
    rw [escJsonStr_nil, List.nil_append, parseStrBody_quote]
  | cons c s ih =>
    intro rest
    rw [escJsonStr_cons, List.append_assoc]
    by_cases h34 : c = Char.ofNat 34
    · subst h34
      have hesc : escJsonChar (Char.ofNat 34) = [Char.ofNat 92, Char.ofNat 34] := by decide
      rw [hesc]
      simp only [List.cons_append, List.nil_append]
      rw [parseStrBody_escape (Char.ofNat 34) (Char.ofNat 34) _ (by decide) (by decide), ih]
      rfl
    by_cases h92 : c = Char.ofNat 92
    · subst h92
      have hesc : escJsonChar (Char.ofNat 92) = [Char.ofNat 92, Char.ofNat 92] := by decide
      rw [hesc]
      simp only [List.cons_append, List.nil_append]
      rw [parseStrBody_escape (Char.ofNat 92) (Char.ofNat 92) _ (by decide) (by decide), ih]
      rfl
    by_cases h8 : c = Char.ofNat 8
    · subst h8
      have hesc : escJsonChar (Char.ofNat 8) = [Char.ofNat 92, 'b'] := by decide
      rw [hesc]
      simp only [List.cons_append, List.nil_append]
      rw [parseStrBody_escape 'b' (Char.ofNat 8) _ (by decide) (by decide), ih]
      rfl
    by_cases h12 : c = Char.ofNat 12
    · subst h12
      have hesc : escJsonChar (Char.ofNat 12) = [Char.ofNat 92, 'f'] := by decide
      rw [hesc]
      simp only [List.cons_append, List.nil_append]
      rw [parseStrBody_escape 'f' (Char.ofNat 12) _ (by decide) (by decide), ih]
      rfl
    by_cases h10 : c = Char.ofNat 10
    · subst h10
      have hesc : escJsonChar (Char.ofNat 10) = [Char.ofNat 92, 'n'] := by decide
      rw [hesc]
      simp only [List.cons_append, List.nil_append]
      rw [parseStrBody_escape 'n' (Char.ofNat 10) _ (by decide) (by decide), ih]
      rfl
    by_cases h13 : c = Char.ofNat 13
    · subst h13
      have hesc : escJsonChar (Char.ofNat 13) = [Char.ofNat 92, 'r'] := by decide
      rw [hesc]
      simp only [List.cons_append, List.nil_append]
      rw [parseStrBody_escape 'r' (Char.ofNat 13) _ (by decide) (by decide), ih]
      rfl
    by_cases h9 : c = Char.ofNat 9
    · subst h9
      have hesc : escJsonChar (Char.ofNat 9) = [Char.ofNat 92, 't'] := by decide
      rw [hesc]
      simp only [List.cons_append, List.nil_append]
      rw [parseStrBody_escape 't' (Char.ofNat 9) _ (by decide) (by decide), ih]
      rfl
    by_cases hctl : c.toNat < 32
    · have hesc : escJsonChar c =
          [Char.ofNat 92, 'u', '0', '0', hexDig (c.toNat / 16), hexDig (c.toNat % 16)] := by
        simp [escJsonChar, h34, h92, h8, h12, h10, h13, h9, hctl]
      rw [hesc]
      simp only [List.cons_append, List.nil_append]
      rw [parseStrBody_unicode _ _ _ _ 0 0 (c.toNat / 16) (c.toNat % 16) _
        (by decide) (by decide) (hexVal_hexDig _ (by omega)) (hexVal_hexDig _ (by omega)), ih]
      have harith : ((0 * 16 + 0) * 16 + c.toNat / 16) * 16 + c.toNat % 16 = c.toNat := by
        omega
      rw [harith, Char.ofNat_toNat]
      rfl
    · have hesc : escJsonChar c = [c] := by
        simp [escJsonChar, h34, h92, h8, h12, h10, h13, h9, hctl]
      rw [hesc]
      simp only [List.cons_append, List.nil_append]
      rw [parseStrBody_lit c _ h34 h92, ih]
      rfl

mutual

/-- Fuel sufficient for `parseVal` to parse the printed form of a value. -/
def jfuel : JsVal → Nat
  | .jnull => 1
  | .jbool _ => 1
  | .jnum _ => 1
  | .jstr _ => 1
  | .jarr l => 1 + jfuelI l
  | .jobj l => 1 + jfuelM l

/-- Fuel sufficient for `parseItems` on printed array elements. -/
def jfuelI : JsItems → Nat
  | .nil => 0
  | .cons v tl => 1 + jfuel v + jfuelI tl

/-- Fuel sufficient for `parseMembers` on printed object members. -/
def jfuelM : JsMembers → Nat
  | .nil => 0
  | .cons _ v tl => 1 + jfuel v + jfuelM tl

end

theorem jfuel_pos (v : JsVal) : 1 ≤ jfuel v := by
  cases v <;> simp [jfuel]

theorem stripChars_exact : ∀ (ps cs : List Char), stripChars ps (ps ++ cs) = some cs := by
  intro ps
  induction ps with
  | nil => intro cs; rfl
  | cons p ps ih => intro cs; simp [stripChars, ih]

theorem skipWs_cons_not (c : Char) (cs : List Char) (h : isJsonWs c = false) :
    skipWs (c :: cs) = c :: cs := by
  simp [skipWs, h]

theorem ne_of_toNat_ne {c d : Char} (h : c.toNat ≠ d.toNat) : c ≠ d :=
  fun he => h (by rw [he])

theorem digit_head_props {c : Char} (h : c.isDigit) :
    isJsonWs c = false ∧ c ≠ ']' ∧ c ≠ Char.ofNat 125 := by
  obtain ⟨h1, h2⟩ := isDigit_toNat h
  refine ⟨?_, ?_, ?_⟩
  · simp only [isJsonWs, Bool.or_eq_false_iff, decide_eq_false_iff_not]
    refine ⟨⟨⟨?_, ?_⟩, ?_⟩, ?_⟩
    · apply ne_of_toNat_ne; rw [show (Char.ofNat 32).toNat = 32 from by decide]; omega
    · apply ne_of_toNat_ne; rw [show (Char.ofNat 9).toNat = 9 from by decide]; omega
    · apply ne_of_toNat_ne; rw [show (Char.ofNat 10).toNat = 10 from by decide]; omega
    · apply ne_of_toNat_ne; rw [show (Char.ofNat 13).toNat = 13 from by decide]; omega
  · apply ne_of_toNat_ne
    intro hx
    rw [show (']' : Char).toNat = 93 from rfl] at hx
    omega
  · apply ne_of_toNat_ne
    intro hx
    rw [show (Char.ofNat 125).toNat = 125 from rfl] at hx
    omega

/-- Every printed JSON value starts with a non-whitespace character that
is neither a closing bracket nor a closing brace. -/
theorem printJson_head (v : JsVal) :
    ∃ c cs, printJson v = c :: cs ∧ isJsonWs c = false ∧ c ≠ ']' ∧ c ≠ Char.ofNat 125 := by
  cases v with
  | jnull => refine ⟨'n', _, rfl, ?_, ?_, ?_⟩ <;> decide
  | jbool b =>
    rcases b with _ | _
    · refine ⟨'f', _, rfl, ?_, ?_, ?_⟩ <;> decide
    · refine ⟨'t', _, rfl, ?_, ?_, ?_⟩ <;> decide
  | jnum n =>
    show ∃ c cs, intChars n = c :: cs ∧ _
    unfold intChars
    by_cases hneg : n < 0
    · rw [if_pos hneg]
      refine ⟨'-', _, rfl, ?_, ?_, ?_⟩ <;> decide
    · rw [if_neg hneg]
      obtain ⟨c, cs, hcons, hdig⟩ := natDigs_head_digit n.toNat
      obtain ⟨p1, p2, p3⟩ := digit_head_props hdig
      exact ⟨c, cs, hcons, p1, p2, p3⟩
  | jstr s => refine ⟨Char.ofNat 34, _, rfl, ?_, ?_, ?_⟩ <;> decide
  | jarr l => refine ⟨'[', _, rfl, ?_, ?_, ?_⟩ <;> decide
  | jobj l => refine ⟨Char.ofNat 123, _, rfl, ?_, ?_, ?_⟩ <;> decide

/-- The printed tail of a non-first array position: nothing for the last
element, a comma and the remaining elements otherwise. -/
def printItemsTail : JsItems → List Char
  | .nil => []
  | l => ',' :: printItems l

theorem printItems_cons (v : JsVal) (tl : JsItems) :
    printItems (.cons v tl) = printJson v ++ printItemsTail tl := by
  cases tl <;> simp [printItems, printItemsTail]

/-- The printed tail of a non-first object position. -/
def printMembersTail : JsMembers → List Char
  | .nil => []
  | l => ',' :: printMembers l

theorem printMembers_cons (k : String) (v : JsVal) (tl : JsMembers) :
    printMembers (.cons k v tl) =
      Char.ofNat 34 :: (escJsonStr k.data ++ Char.ofNat 34 :: ':' :: printJson v)
        ++ printMembersTail tl := by
  cases tl <;> simp [printMembers, printMembersTail]

theorem numDelim_nil : numDelim [] := by
  intro c hc
  simp at hc

theorem numDelim_cons (c : Char) (r : List Char)
    (h : ¬(c.isDigit ∨ c = '.' ∨ c = 'e' ∨ c = 'E')) : numDelim (c :: r) := by
  intro d hd
  simp at hd
  subst hd
  exact h

theorem parseVal_step_null (f : Nat) (cs : List Char) :
    parseVal (f + 1) ('n' :: cs) =
      (stripChars ['u', 'l', 'l'] cs).map (fun r => (JsVal.jnull, r)) := by
  rw [parseVal.eq_def]
  simp only []
  rw [skipWs_cons_not _ _ (by decide)]
  simp

theorem parseVal_step_true (f : Nat) (cs : List Char) :
    parseVal (f + 1) ('t' :: cs) =
      (stripChars ['r', 'u', 'e'] cs).map (fun r => (JsVal.jbool true, r)) := by
  rw [parseVal.eq_def]
  simp only []
  rw [skipWs_cons_not _ _ (by decide)]
  simp

theorem parseVal_step_false (f : Nat) (cs : List Char) :
    parseVal (f + 1) ('f' :: cs) =
      (stripChars ['a', 'l', 's', 'e'] cs).map (fun r => (JsVal.jbool false, r)) := by
  rw [parseVal.eq_def]
  simp only []
  rw [skipWs_cons_not _ _ (by decide)]
  simp

theorem parseVal_step_str (f : Nat) (cs : List Char) :
    parseVal (f + 1) (Char.ofNat 34 :: cs) =
      (parseStrBody cs).map (fun br => (JsVal.jstr (String.mk br.1), br.2)) := by
  rw [parseVal.eq_def]
  simp only []
  rw [skipWs_cons_not _ _ (by decide)]
  simp

theorem parseVal_step_arr (f : Nat) (cs : List Char) :
    parseVal (f + 1) ('[' :: cs) =
      (match skipWs cs with
        | ']' :: r => some (JsVal.jarr .nil, r)
        | cs' => (parseItems f cs').map (fun lr => (JsVal.jarr lr.1, lr.2))) := by
  rw [parseVal.eq_def]
  simp only []
  rw [skipWs_cons_not _ _ (by decide)]
  simp

theorem parseVal_step_obj (f : Nat) (cs : List Char) :
    parseVal (f + 1) (Char.ofNat 123 :: cs) =
      (match skipWs cs with
        | d :: r =>
          if d = Char.ofNat 125 then some (JsVal.jobj .nil, r)
          else (parseMembers f (d :: r)).map (fun lr => (JsVal.jobj lr.1, lr.2))
        | [] => none) := by
  rw [parseVal.eq_def]
  simp only []
  rw [skipWs_cons_not _ _ (by decide)]
  simp

theorem parseVal_step_num (f : Nat) (c : Char) (cs : List Char)
    (h : c = '-' ∨ c.isDigit) (hws : isJsonWs c = false)
    (h1 : c ≠ 'n') (h2 : c ≠ 't') (h3 : c ≠ 'f') (h4 : c ≠ Char.ofNat 34)
    (h5 : c ≠ '[') (h6 : c ≠ Char.ofNat 123) :
    parseVal (f + 1) (c :: cs) =
      (parseNum (c :: cs)).map (fun nr => (JsVal.jnum nr.1, nr.2)) := by
  rw [parseVal.eq_def]
  simp only []
  rw [skipWs_cons_not _ _ hws]
  simp [h1, h2, h3, h4, h5, h6, h]

theorem arrBranch_cons (f : Nat) (c : Char) (ys : List Char) (hc : c ≠ ']') :
    (match (c :: ys : List Char) with
      | ']' :: r => some (JsVal.jarr .nil, r)
      | cs' => (parseItems f cs').map (fun lr => (JsVal.jarr lr.1, lr.2))) =
      (parseItems f (c :: ys)).map (fun lr => (JsVal.jarr lr.1, lr.2)) := by
  split
  · rename_i r heq
    rw [List.cons.injEq] at heq
    exact absurd heq.1 hc
  · rfl

theorem objBranch_cons (f : Nat) (c : Char) (ys : List Char) (hc : c ≠ Char.ofNat 125) :
    (match (c :: ys : List Char) with
      | d :: r =>
        if d = Char.ofNat 125 then some (JsVal.jobj .nil, r)
        else (parseMembers f (d :: r)).map (fun lr => (JsVal.jobj lr.1, lr.2))
      | [] => none) =
      (parseMembers f (c :: ys)).map (fun lr => (JsVal.jobj lr.1, lr.2)) := by
  simp [hc]

mutual

theorem parseVal_print : ∀ (v : JsVal) (fuel : Nat) (rest : List Char),
    numDelim rest → jfuel v ≤ fuel →
    parseVal fuel (printJson v ++ rest) = some (v, rest)
  | .jnull, fuel, rest, hr, hf => by
    obtain ⟨f, rfl⟩ : ∃ f, fuel = f + 1 := ⟨fuel - 1, by simp [jfuel] at hf; omega⟩
    simp only [printJson, List.cons_append, List.nil_append]
    rw [parseVal_step_null,
      show ('u' :: 'l' :: 'l' :: rest) = ['u', 'l', 'l'] ++ rest from rfl, stripChars_exact]
    rfl
  | .jbool true, fuel, rest, hr, hf => by
    obtain ⟨f, rfl⟩ : ∃ f, fuel = f + 1 := ⟨fuel - 1, by simp [jfuel] at hf; omega⟩
    simp only [printJson, List.cons_append, List.nil_append]
    rw [parseVal_step_true,
      show ('r' :: 'u' :: 'e' :: rest) = ['r', 'u', 'e'] ++ rest from rfl, stripChars_exact]
    rfl
  | .jbool false, fuel, rest, hr, hf => by
    obtain ⟨f, rfl⟩ : ∃ f, fuel = f + 1 := ⟨fuel - 1, by simp [jfuel] at hf; omega⟩
    simp only [printJson, List.cons_append, List.nil_append]
    rw [parseVal_step_false,
      show ('a' :: 'l' :: 's' :: 'e' :: rest) = ['a', 'l', 's', 'e'] ++ rest from rfl,
      stripChars_exact]
    rfl
  | .jnum n, fuel, rest, hr, hf => by
    obtain ⟨f, rfl⟩ : ∃ f, fuel = f + 1 := ⟨fuel - 1, by simp [jfuel] at hf; omega⟩
    simp only [printJson]
    by_cases hneg : n < 0
    · rw [show intChars n = '-' :: natDigs ((-n).toNat) from by simp [intChars, hneg],
        List.cons_append, parseVal_step_num f '-' _ (Or.inl rfl) (by decide) (by decide)
          (by decide) (by decide) (by decide) (by decide) (by decide),
        show ('-' :: (natDigs ((-n).toNat) ++ rest)) =
          (('-' :: natDigs ((-n).toNat)) ++ rest) from rfl,
        show ('-' :: natDigs ((-n).toNat)) = intChars n from by simp [intChars, hneg],
        parseNum_intChars n rest hr]
      rfl
    · obtain ⟨c, cs, hcons, hdig⟩ := natDigs_head_digit n.toNat
      have hic : intChars n = c :: cs := by rw [intChars, if_neg hneg, hcons]
      obtain ⟨hd1, hd2⟩ := isDigit_toNat hdig
      rw [hic, List.cons_append, parseVal_step_num f c _ (Or.inr hdig)
          (digit_head_props hdig).1
          (ne_of_toNat_ne (by rw [show ('n' : Char).toNat = 110 from rfl]; omega))
          (ne_of_toNat_ne (by rw [show ('t' : Char).toNat = 116 from rfl]; omega))
          (ne_of_toNat_ne (by rw [show ('f' : Char).toNat = 102 from rfl]; omega))
          (ne_of_toNat_ne (by rw [show (Char.ofNat 34).toNat = 34 from rfl]; omega))
          (ne_of_toNat_ne (by rw [show ('[' : Char).toNat = 91 from rfl]; omega))
          (ne_of_toNat_ne (by rw [show (Char.ofNat 123).toNat = 123 from rfl]; omega)),
        show (c :: (cs ++ rest)) = ((c :: cs) ++ rest) from rfl, ← hic,
        parseNum_intChars n rest hr]
      rfl
  | .jstr s, fuel, rest, hr, hf => by
    obtain ⟨f, rfl⟩ : ∃ f, fuel = f + 1 := ⟨fuel - 1, by simp [jfuel] at hf; omega⟩
    simp only [printJson, List.cons_append, List.append_assoc, List.nil_append]
    rw [parseVal_step_str, parseStrBody_esc]
    rfl
  | .jarr .nil, fuel, rest, hr, hf => by
    obtain ⟨f, rfl⟩ : ∃ f, fuel = f + 1 := ⟨fuel - 1, by simp [jfuel] at hf; omega⟩
    simp only [printJson, printItems, List.cons_append, List.nil_append]
    rw [parseVal_step_arr, skipWs_cons_not _ _ (by decide)]
    rfl
  | .jarr (.cons v tl), fuel, rest, hr, hf => by
    obtain ⟨f, rfl⟩ : ∃ f, fuel = f + 1 := ⟨fuel - 1, by simp [jfuel] at hf; omega⟩
    simp only [printJson, List.cons_append, List.append_assoc, List.nil_append]
    rw [parseVal_step_arr]
    obtain ⟨c, cs0, hcons, hws, hrb, hob⟩ := printJson_head v
    have hitems : printItems (JsItems.cons v tl) ++ ']' :: rest
        = c :: (cs0 ++ (printItemsTail tl ++ ']' :: rest)) := by
      rw [printItems_cons, hcons]
      simp [List.cons_append, List.append_assoc]
    rw [hitems, skipWs_cons_not _ _ hws, arrBranch_cons f c _ hrb, ← hitems,
      parseItems_print v tl f rest (by simp [jfuel] at hf; omega)]
    rfl
  | .jobj .nil, fuel, rest, hr, hf => by
    obtain ⟨f, rfl⟩ : ∃ f, fuel = f + 1 := ⟨fuel - 1, by simp [jfuel] at hf; omega⟩
    simp only [printJson, printMembers, List.cons_append, List.nil_append]
    rw [parseVal_step_obj, skipWs_cons_not _ _ (by decide)]
    rfl
  | .jobj (.cons k v tl), fuel, rest, hr, hf => by
    obtain ⟨f, rfl⟩ : ∃ f, fuel = f + 1 := ⟨fuel - 1, by simp [jfuel] at hf; omega⟩
    simp only [printJson, List.cons_append, List.append_assoc, List.nil_append]
    rw [parseVal_step_obj]
    have hmem : printMembers (JsMembers.cons k v tl) ++ Char.ofNat 125 :: rest
        = Char.ofNat 34 :: ((escJsonStr k.data ++ Char.ofNat 34 :: ':' :: printJson v)
            ++ (printMembersTail tl ++ Char.ofNat 125 :: rest)) := by
      rw [printMembers_cons]
      simp [List.cons_append, List.append_assoc]
    rw [hmem, skipWs_cons_not _ _ (by decide), objBranch_cons f _ _ (by decide), ← hmem,
      parseMembers_print k v tl f rest (by simp [jfuel] at hf; omega)]
    rfl
termination_by v _ _ _ _ => sizeOf v

theorem parseItems_print : ∀ (v : JsVal) (tl : JsItems) (fuel : Nat) (rest : List Char),
    jfuelI (.cons v tl) ≤ fuel →
    parseItems fuel (printItems (.cons v tl) ++ ']' :: rest) = some (.cons v tl, rest)
  | v, tl, fuel, rest, hf => by
    obtain ⟨f, rfl⟩ : ∃ f, fuel = f + 1 := ⟨fuel - 1, by simp [jfuelI] at hf; omega⟩
    rw [parseItems.eq_def]
    simp only []
    rw [printItems_cons, List.append_assoc]
    cases tl with
    | nil =>
      rw [show (printItemsTail .nil ++ ']' :: rest : List Char) = ']' :: rest from rfl]
      rw [parseVal_print v f (']' :: rest) (numDelim_cons _ _ (by decide))
        (by simp [jfuelI] at hf; omega)]
      simp only [Option.bind_eq_bind, Option.some_bind]
      rw [skipWs_cons_not _ _ (by decide)]
      rfl
    | cons v2 tl2 =>
      rw [show (printItemsTail (.cons v2 tl2) ++ ']' :: rest : List Char)
        = ',' :: (printItems (.cons v2 tl2) ++ ']' :: rest) from by
          simp [printItemsTail, List.cons_append]]
      rw [parseVal_print v f _ (numDelim_cons _ _ (by decide))
        (by simp [jfuelI] at hf; omega)]
      simp only [Option.bind_eq_bind, Option.some_bind]
      rw [skipWs_cons_not _ _ (by decide)]
      simp only []
      rw [parseItems_print v2 tl2 f rest (by simp [jfuelI] at hf ⊢; omega)]
      rfl
termination_by v tl _ _ _ => sizeOf (JsItems.cons v tl)

theorem parseMembers_print : ∀ (k : String) (v : JsVal) (tl : JsMembers) (fuel : Nat)
    (rest : List Char), jfuelM (.cons k v tl) ≤ fuel →
    parseMembers fuel (printMembers (.cons k v tl) ++ Char.ofNat 125 :: rest) =
      some (.cons k v tl, rest)
  | k, v, tl, fuel, rest, hf => by
    obtain ⟨f, rfl⟩ : ∃ f, fuel = f + 1 := ⟨fuel - 1, by simp [jfuelM] at hf; omega⟩
    rw [parseMembers.eq_def]
    simp only []
    have hmem : printMembers (JsMembers.cons k v tl) ++ Char.ofNat 125 :: rest
        = Char.ofNat 34 :: (escJsonStr k.data
            ++ Char.ofNat 34 :: (':' :: (printJson v
              ++ (printMembersTail tl ++ Char.ofNat 125 :: rest)))) := by
      rw [printMembers_cons]
      simp [List.cons_append, List.append_assoc]
    rw [hmem, skipWs_cons_not _ _ (by decide)]
    simp only []
    simp only [if_true]
    rw [show (escJsonStr k.data ++ Char.ofNat 34 :: (':' :: (printJson v
        ++ (printMembersTail tl ++ Char.ofNat 125 :: rest))) : List Char)
      = escJsonStr k.data ++ Char.ofNat 34 :: (':' :: (printJson v
        ++ (printMembersTail tl ++ Char.ofNat 125 :: rest))) from rfl]
    rw [parseStrBody_esc k.data]
    simp only [Option.bind_eq_bind, Option.some_bind]
    rw [skipWs_cons_not _ _ (by decide)]
    simp only []
    cases tl with
    | nil =>
      rw [show (printMembersTail .nil ++ Char.ofNat 125 :: rest : List Char)
        = Char.ofNat 125 :: rest from rfl]
      rw [parseVal_print v f _ (numDelim_cons _ _ (by decide))
        (by simp [jfuelM] at hf; omega)]
      simp only [Option.bind_eq_bind, Option.some_bind]
      rw [skipWs_cons_not _ _ (by decide)]
      rfl
    | cons k2 v2 tl2 =>
      rw [show (printMembersTail (.cons k2 v2 tl2) ++ Char.ofNat 125 :: rest : List Char)
        = ',' :: (printMembers (.cons k2 v2 tl2) ++ Char.ofNat 125 :: rest) from by
          simp [printMembersTail, List.cons_append]]
      rw [parseVal_print v f _ (numDelim_cons _ _ (by decide))
        (by simp [jfuelM] at hf; omega)]
      simp only [Option.bind_eq_bind, Option.some_bind]
      rw [skipWs_cons_not _ _ (by decide)]
      simp only []
      rw [parseMembers_print k2 v2 tl2 f rest (by simp [jfuelM] at hf ⊢; omega)]
      rfl
termination_by k v tl _ _ _ => sizeOf (JsMembers.cons k v tl)

end



mutual

theorem jfuel_le_len : ∀ (v : JsVal), jfuel v ≤ 2 * (printJson v).length
  | .jnull => by simp [jfuel, printJson]
  | .jbool true => by simp [jfuel, printJson]
  | .jbool false => by simp [jfuel, printJson]
  | .jnum n => by
    have h := natDigs_ne_nil n.toNat
    have h2 := natDigs_ne_nil (-n).toNat
    simp only [jfuel, printJson, intChars]
    by_cases hneg : n < 0 <;> simp [hneg] <;>
      cases hd : natDigs ((-n).toNat) <;> cases hd2 : natDigs n.toNat <;>
        simp_all <;> omega
  | .jstr s => by simp [jfuel, printJson]; omega
  | .jarr l => by
    have hb := jfuelI_le_len l
    simp [jfuel, printJson]
    omega
  | .jobj l => by
    have hb := jfuelM_le_len l
    simp [jfuel, printJson]
    omega

theorem jfuelI_le_len : ∀ (l : JsItems), jfuelI l ≤ 2 * (printItems l).length + 1
  | .nil => by simp [jfuelI]
  | .cons v .nil => by
    have ha := jfuel_le_len v
    simp [jfuelI, printItems, jfuelI]
    omega
  | .cons v (.cons v2 tl) => by
    have ha := jfuel_le_len v
    have hb := jfuelI_le_len (.cons v2 tl)
    rw [show printItems (.cons v (.cons v2 tl))
      = printJson v ++ ',' :: printItems (.cons v2 tl) from rfl]
    simp only [jfuelI] at hb ⊢
    simp
    omega

theorem jfuelM_le_len : ∀ (l : JsMembers), jfuelM l ≤ 2 * (printMembers l).length + 1
  | .nil => by simp [jfuelM]
  | .cons k v .nil => by
    have ha := jfuel_le_len v
    simp [jfuelM, printMembers]
    omega
  | .cons k v (.cons k2 v2 tl) => by
    have ha := jfuel_le_len v
    have hb := jfuelM_le_len (.cons k2 v2 tl)
    rw [show printMembers (.cons k v (.cons k2 v2 tl))
      = (Char.ofNat 34 :: (escJsonStr k.data ++ Char.ofNat 34 :: ':' :: printJson v))
        ++ ',' :: printMembers (.cons k2 v2 tl) from rfl]
    simp only [jfuelM] at hb ⊢
    simp
    omega

end

/-- `JSON.parse ∘ JSON.stringify` is the identity on modelled JS
values: the serialization round-trip is lossless. -/
theorem jsonParse_stringify (v : JsVal) : jsonParse (stringifyJson v) = some v := by
  unfold jsonParse stringifyJson
  rw [show (String.mk (printJson v)).data = printJson v from rfl,
    show (String.mk (printJson v)).length = (printJson v).length from rfl]
  have h := parseVal_print v (2 * (printJson v).length + 2) [] numDelim_nil
    (by have := jfuel_le_len v; omega)
  rw [List.append_nil] at h
  rw [h]
  rfl

/-! ### The shared key-value store (`@vercel/kv`)

One Redis-style namespace holding the queue list plus TTL'd sentinel
keys (`lock:<jobId>`, `done:<jobId>`).  Expiry is explicit: a sentinel
is stored with its absolute expiry instant and is treated as absent
once `now` reaches it, mirroring `SET ... EX ttl` semantics. -/

/-- The shared store: the job queue list and the TTL'd sentinel keys
(each key mapped to its expiry instant). -/
structure KV where
  queue : List JsVal
  strs : List (String × Nat)
deriving DecidableEq

/-- `GET key` as a presence test: true iff the key exists and has not
expired at `now`. -/
def kvGetLive (st : List (String × Nat)) (key : String) (now : Nat) : Bool :=
  match st.find? (fun kv => kv.1 == key) with
  | some kv => now < kv.2
  | none => false

/-- `SET key val EX ttl` (unconditional): replaces any previous entry. -/
def kvSetEx (st : List (String × Nat)) (key : String) (expiresAt : Nat) :
    List (String × Nat) :=
  (key, expiresAt) :: st.filter (fun kv => ¬(kv.1 == key))

/-- `SET key val NX EX ttl`: succeeds (returning `"OK"`, here `true`)
iff no unexpired entry for the key exists; an expired entry is
overwritten, as Redis removes expired keys lazily. -/
def kvSetNxEx (st : List (String × Nat)) (key : String) (now ttl : Nat) :
    Bool × List (String × Nat) :=
  if kvGetLive st key now then (false, st)
  else (true, kvSetEx st key (now + ttl))

/-- `DEL key`. -/
def kvDel (st : List (String × Nat)) (key : String) : List (String × Nat) :=
  st.filter (fun kv => ¬(kv.1 == key))

/-! ### `lib/queue.js` -/

def QUEUE_KEY : String := "fs:guru:queue"

def LOCK_PREFIX : String := "fs:guru:lock:"

def DONE_PREFIX : String := "fs:guru:done:"

/-- `enqueueJob(job)`: `kv.rpush(QUEUE_KEY, JSON.stringify(job))` —
appends the serialized job string to the queue tail. -/
def enqueueJob (job : JsVal) (kv : KV) : KV :=
  { kv with queue := kv.queue ++ [JsVal.jstr (stringifyJson job)] }

/-- The body of `dequeueJob`'s bounded retry loop
(`for (let i = 0; i < 10; i++)`), returning the dequeued job (or
`none`) and the remaining queue.  Per popped value `raw`:
`if (!raw) return null` (falsy value: return, the pop is not undone);
non-strings are dropped with `continue`; strings are `JSON.parse`d
(`none` models the thrown `SyntaxError`, caught and dropped with
`continue`); a parse result that is falsy or not of object type is
dropped with `continue`; otherwise the parsed job is returned. -/
def dequeueLoop : Nat → List JsVal → Option JsVal × List JsVal
  | 0, q => (none, q)
  | i + 1, q =>
    match q with
    | [] => (none, [])
    | raw :: q' =>
      if raw.falsy then (none, q')
      else
        match raw with
        | .jstr s =>
          match jsonParse s with
          | some job =>
            if job.falsy || !job.isObjectType then dequeueLoop i q'
            else (some job, q')
          | none => dequeueLoop i q'
        | _ => dequeueLoop i q'

/-- `dequeueJob()` from `lib/queue.js`: up to 10 pop attempts. -/
def dequeueJob (kv : KV) : Option JsVal × KV :=
  let r := dequeueLoop 10 kv.queue
  (r.1, { kv with queue := r.2 })

/-- `purgeQueue()`: `kv.del(QUEUE_KEY)`. -/
def purgeQueue (kv : KV) : KV :=
  { kv with queue := [] }

/-- `markDone(jobId, ttlSeconds)` (source default `ttlSeconds = 3600`):
unconditional set-with-expiry of the completion sentinel. -/
def markDone (jobId : String) (ttlSeconds : Nat) (now : Nat) (kv : KV) : KV :=
  { kv with strs := kvSetEx kv.strs (DONE_PREFIX ++ jobId) (now + ttlSeconds) }

/-- `isDone(jobId)`: boolean presence check of the completion sentinel. -/
def isDone (jobId : String) (now : Nat) (kv : KV) : Bool :=
  kvGetLive kv.strs (DONE_PREFIX ++ jobId) now

/-- `acquireLock(jobId, ttlSeconds)` (source default `ttlSeconds = 120`):
`SET key NX EX ttl`, returning whether the set succeeded (`ok === "OK"`). -/
def acquireLock (jobId : String) (ttlSeconds : Nat) (now : Nat) (kv : KV) : Bool × KV :=
  let r := kvSetNxEx kv.strs (LOCK_PREFIX ++ jobId) now ttlSeconds
  (r.1, { kv with strs := r.2 })

/-- `releaseLock(jobId)`: unconditional delete of the lock key. -/
def releaseLock (jobId : String) (kv : KV) : KV :=
  { kv with strs := kvDel kv.strs (LOCK_PREFIX ++ jobId) }

/-! ### JS string and number coercions

Template literals (`` `${LOCK_PREFIX}${jobId}` ``) coerce their
interpolated values with `String(...)`; the worker's `maxJobs` is
coerced with `Number(...)`.  `Number` on strings is modelled for the
decimal grammar (sign, digits, fraction, exponent); hexadecimal /
octal / binary literal strings are not modelled. -/

mutual

/-- `String(v)` for a defined value. -/
def jsToStr : JsVal → String
  | .jnull => "null"
  | .jbool true => "true"
  | .jbool false => "false"
  | .jnum n => String.mk (intChars n)
  | .jstr s => s
  | .jarr l => jsArrJoin l
  | .jobj _ => "[object Object]"

/-- `Array.prototype.join(",")`, as used by `String` on arrays. -/
def jsArrJoin : JsItems → String
  | .nil => ""
  | .cons v .nil => jsElemStr v
  | .cons v tl => jsElemStr v ++ "," ++ jsArrJoin tl

/-- `join` renders `null` elements as the empty string. -/
def jsElemStr : JsVal → String
  | .jnull => ""
  | v => jsToStr v

end

/-- `String(v)` where `v` may be `undefined` (`none`). -/
def jsToStrU : Option JsVal → String
  | none => "undefined"
  | some v => jsToStr v

/-- Truthiness of a possibly-`undefined` value. -/
def jsFalsyU : Option JsVal → Bool
  | none => true
  | some v => v.falsy

/-- Trim leading and trailing whitespace (as `Number(string)` does). -/
def trimWs (cs : List Char) : List Char :=
  ((cs.dropWhile isJsonWs).reverse.dropWhile isJsonWs).reverse

/-- Parse an unsigned decimal significand `digits[.digits]` or
`.digits`, returning its value and the remaining input. -/
def parseUDec (cs : List Char) : Option (ℚ × List Char) :=
  let ds := cs.takeWhile Char.isDigit
  let r1 := cs.dropWhile Char.isDigit
  match r1 with
  | '.' :: r2 =>
    let fs := r2.takeWhile Char.isDigit
    let r3 := r2.dropWhile Char.isDigit
    if ds = [] ∧ fs = [] then none
    else some ((digsToNat ds : ℚ) + (digsToNat fs : ℚ) / ((10 : ℚ) ^ fs.length), r3)
  | _ => if ds = [] then none else some ((digsToNat ds : ℚ), r1)

/-- Parse a complete signed exponent (`[+-]digits`, nothing left over). -/
def parseExpPart (cs : List Char) : Option Int :=
  let t := match cs with
    | '-' :: r => r
    | '+' :: r => r
    | _ => cs
  let sgn : Int := match cs with
    | '-' :: _ => -1
    | _ => 1
  let ds := t.takeWhile Char.isDigit
  if ds = [] ∨ t.dropWhile Char.isDigit ≠ [] then none
  else some (sgn * (digsToNat ds : Int))

/-- `Number(string)` over the decimal grammar: `none` is `NaN`. -/
def strToNumber (s : String) : Option ℚ :=
  let t := trimWs s.data
  if t = [] then some 0
  else
    let sgn : ℚ := match t with
      | '-' :: _ => -1
      | _ => 1
    let t2 := match t with
      | '-' :: r => r
      | '+' :: r => r
      | _ => t
    match parseUDec t2 with
    | none => none
    | some mr =>
      match mr.2 with
      | [] => some (sgn * mr.1)
      | e :: r2 =>
        if e = 'e' ∨ e = 'E' then
          match parseExpPart r2 with
          | some ex => some (sgn * mr.1 * (10 : ℚ) ^ ex)
          | none => none
        else none

/-- `Number(v)` coercion: `none` is `NaN`. -/
def toNumber : JsVal → Option ℚ
  | .jnull => some 0
  | .jbool true => some 1
  | .jbool false => some 0
  | .jnum n => some (n : ℚ)
  | .jstr s => strToNumber s
  | .jarr l => strToNumber (jsToStr (.jarr l))
  | .jobj _ => none

/-- `Math.min(a, x)` with NaN propagation. -/
def jsMin (a : ℚ) (x : Option ℚ) : Option ℚ :=
  match x with
  | none => none
  | some q => some (min a q)

/-- `Math.max(a, x)` with NaN propagation. -/
def jsMax (a : ℚ) (x : Option ℚ) : Option ℚ :=
  match x with
  | none => none
  | some q => some (max a q)

/-! ### The worker driver (`api/worker` handler) -/

/-- `Math.max(1, Math.min(5, Number(maxJobsRaw || 1)))`, where
`maxJobsRaw` is the JS value of `req.body?.maxJobs` (`none` =
absent/`undefined`). -/
def clampMaxJobs (raw : Option JsVal) : Option ℚ :=
  let coerced : Option ℚ :=
    match raw with
    | none => some 1
    | some v => if v.falsy then some 1 else toNumber v
  jsMax 1 (jsMin 5 coerced)

/-- The number of iterations `for (let i = 0; i < maxJobs; i++)`
performs for a JS-number bound: zero when the bound is `NaN` (every
comparison with `NaN` is false) or non-positive, `⌈maxJobs⌉` otherwise. -/
def jsLoopCount (m : Option ℚ) : Nat :=
  match m with
  | none => 0
  | some q => if q ≤ 0 then 0 else (⌈q⌉).toNat

/-- Store/collaborator events of one worker invocation, in order. -/
inductive WOp where
  | dequeue (result : Option JsVal) : WOp
  | acquire (key : String) (ok : Bool) : WOp
  | extProcess (job : JsVal) (ok : Bool) : WOp
  | markDone (key : String) : WOp
  | release (key : String) : WOp
deriving DecidableEq

/-- Result of one iteration of the worker loop body. -/
structure IterResult where
  kv : KV
  pushed : Option (Option JsVal)
  ops : List WOp
  brk : Bool
deriving DecidableEq

/-- One iteration of the worker loop: dequeue (`break` on `null`),
try-lock (`continue` when contended), then
`try { processOneJob; markDone; processed.push } catch {} finally
{ releaseLock }`.  `proc job = true` models the opaque external
processing call succeeding, `false` models it raising; the raised
failure is caught and logged, so only its success/failure matters. -/
def workerIter (proc : JsVal → Bool) (now : Nat) (kv : KV) : IterResult :=
  let d := dequeueJob kv
  match d.1 with
  | none => ⟨d.2, none, [.dequeue none], true⟩
  | some job =>
    let jid := jsToStrU (job.jget "jobId")
    let a := acquireLock jid 180 now d.2
    if !a.1 then
      ⟨a.2, none, [.dequeue (some job), .acquire (LOCK_PREFIX ++ jid) false], false⟩
    else if proc job then
      let kv3 := markDone jid (6 * 3600) now a.2
      ⟨releaseLock jid kv3, some (job.jget "jobId"),
        [.dequeue (some job), .acquire (LOCK_PREFIX ++ jid) true, .extProcess job true,
          .markDone (DONE_PREFIX ++ jid), .release (LOCK_PREFIX ++ jid)], false⟩
    else
      ⟨releaseLock jid a.2, none,
        [.dequeue (some job), .acquire (LOCK_PREFIX ++ jid) true, .extProcess job false,
          .release (LOCK_PREFIX ++ jid)], false⟩

/-- The worker loop over at most `n` iterations, accumulating the
`processed` list (the values pushed by `processed.push(job.jobId)`)
and the event trace. -/
def workerLoop (proc : JsVal → Bool) (now : Nat) :
    Nat → KV → KV × List (Option JsVal) × List WOp
  | 0, kv => (kv, [], [])
  | n + 1, kv =>
    let it := workerIter proc now kv
    if it.brk then (it.kv, [], it.ops)
    else
      let rest := workerLoop proc now n it.kv
      (rest.1,
        (match it.pushed with
          | some x => x :: rest.2.1
          | none => rest.2.1),
        it.ops ++ rest.2.2)

/-- The worker handler's drain (after the method/authentication guards,
which perform no store operations): clamp the caller-supplied
`maxJobs` and run the loop. -/
def workerHandler (proc : JsVal → Bool) (now : Nat) (maxJobsRaw : Option JsVal) (kv : KV) :
    KV × List (Option JsVal) × List WOp :=
  workerLoop proc now (jsLoopCount (clampMaxJobs maxJobsRaw)) kv

/-! ### The webhook producer (`api/freshservice-webhook.js`) -/

/-- An incoming HTTP request as the handler sees it: the method, the
headers (Node lowercases header names) and the parsed body (`none` =
absent/`undefined`). -/
structure WebhookRequest where
  method : String
  headers : List (String × String)
  body : Option JsVal
deriving DecidableEq

/-- `req.headers[name]`. -/
def headerVal (req : WebhookRequest) (name : String) : Option String :=
  match req.headers.find? (fun kv => kv.1 == name) with
  | some kv => some kv.2
  | none => none

/-- The five identity fields the handler passes to `jobIdFor` (all
defined: the handler applies destructuring defaults first). -/
structure JobIdPayload where
  ticketId : JsVal
  company : JsVal
  subject : JsVal
  description : JsVal
  vip : JsVal
deriving DecidableEq

/-- `jobIdFor(payload)`: sha256 of `JSON.stringify` of the object
`{ticketId, company, subject, description, vip}` (source key order).
The hash is an external library call (`crypto.createHash("sha256")`),
passed in as an opaque function. -/
def jobIdFor (sha256 : String → String) (p : JobIdPayload) : String :=
  sha256 (stringifyJson (.jobj (.cons "ticketId" p.ticketId (.cons "company" p.company
    (.cons "subject" p.subject (.cons "description" p.description
      (.cons "vip" p.vip .nil)))))))

/-- Store/collaborator events of one webhook handler invocation. -/
inductive HOp where
  | isDoneCheck (key : String) : HOp
  | enqueue (v : JsVal) : HOp
  | workerKick : HOp
deriving DecidableEq

/-- Outcome of one webhook handler invocation. -/
structure HandlerResult where
  status : Nat
  kv : KV
  ops : List HOp
deriving DecidableEq

/-- `req.body || {}`: a falsy or absent body is replaced by an empty
object before destructuring. -/
def jsBodyOr (body : Option JsVal) : JsVal :=
  match body with
  | none => .jobj .nil
  | some v => if v.falsy then .jobj .nil else v

/-- The webhook handler.  `bridgeKey` is the configured `BRIDGE_KEY`
(`mustEnv` rejects a falsy value at startup); `sha256` the opaque hash;
`now` feeds `isDone`'s clock and `Date.now()` (`createdAt`).  The
fire-and-forget worker kick performs no store operation and is recorded
as a single `workerKick` event.  Destructuring defaults
(`description = ""`, `subject = ""`, `company = ""`, `vip = false`)
apply exactly when the property is absent. -/
def webhookHandler (sha256 : String → String) (bridgeKey : String) (now : Nat)
    (req : WebhookRequest) (kv : KV) : HandlerResult :=
  if req.method ≠ "POST" then ⟨405, kv, []⟩
  else if headerVal req "x-bridge-key" ≠ some bridgeKey then ⟨401, kv, []⟩
  else
    let b : JsVal := jsBodyOr req.body
    let ticketId := b.jget "ticketId"
    let company := (b.jget "company").getD (.jstr "")
    let subject := (b.jget "subject").getD (.jstr "")
    let description := (b.jget "description").getD (.jstr "")
    let vip := (b.jget "vip").getD (.jbool false)
    if jsFalsyU ticketId || company.falsy then ⟨400, kv, []⟩
    else
      let tid := ticketId.getD .jnull
      let jobId := jobIdFor sha256 ⟨tid, company, subject, description, vip⟩
      if isDone jobId now kv then ⟨200, kv, [.isDoneCheck (DONE_PREFIX ++ jobId)]⟩
      else
        let job : JsVal := .jobj (.cons "jobId" (.jstr jobId) (.cons "ticketId" tid
          (.cons "company" company (.cons "subject" subject (.cons "description" description
            (.cons "vip" vip (.cons "createdAt" (.jnum now) .nil)))))))
        ⟨200, enqueueJob job kv, [.isDoneCheck (DONE_PREFIX ++ jobId), .enqueue job, .workerKick]⟩

/-! ### `escapeHtml` (worker HTML rendering helper) -/

/-- `String.prototype.replaceAll` for a single-character needle. -/
def replaceAllChar (needle : Char) (repl : List Char) (s : List Char) : List Char :=
  s.flatMap (fun c => if c = needle then repl else [c])

/-- `escapeHtml(s)`: `String(s || "")` followed by the five
`replaceAll`s, in source order: `&` → `&amp;`, `<` → `&lt;`,
`>` → `&gt;`, `"` → `&quot;`, `'` → `&#39;`. -/
def escapeHtml (v : Option JsVal) : String :=
  let base : String := if jsFalsyU v then "" else jsToStr ((v.getD .jnull))
  String.mk
    (replaceAllChar (Char.ofNat 39) ['&', '#', '3', '9', ';']
      (replaceAllChar (Char.ofNat 34) ['&', 'q', 'u', 'o', 't', ';']
        (replaceAllChar '>' ['&', 'g', 't', ';']
          (replaceAllChar '<' ['&', 'l', 't', ';']
            (replaceAllChar '&' ['&', 'a', 'm', 'p', ';'] base.data)))))


/-! ### Claim theorems -/

theorem find?_of_kvDel (l : List (String × Nat)) (key : String) :
    (kvDel l key).find? (fun kv => kv.1 == key) = none := by
  simp only [kvDel]
  rw [List.find?_eq_none]
  intro x hx
  have := List.of_mem_filter hx
  simpa using this

theorem kvGetLive_cons_self (key : String) (e : Nat) (tl : List (String × Nat)) (now2 : Nat) :
    kvGetLive ((key, e) :: tl) key now2 = decide (now2 < e) := by
  simp [kvGetLive, List.find?]

theorem acquireLock_free (id : String) (ttl now : Nat) (kv : KV)
    (h : kvGetLive kv.strs (LOCK_PREFIX ++ id) now = false) :
    (acquireLock id ttl now kv).1 = true ∧
    (acquireLock id ttl now kv).2.strs
      = (LOCK_PREFIX ++ id, now + ttl)
          :: kv.strs.filter (fun p => ¬(p.1 == LOCK_PREFIX ++ id)) := by
  constructor <;> simp [acquireLock, kvSetNxEx, h, kvSetEx]

theorem filter_key_of_kvSetEx (l : List (String × Nat)) (key : String) (e : Nat) :
    (((key, e) :: l.filter (fun p => ¬(p.1 == key))).filter
      (fun p => p.1 == key)).length ≤ 1 := by
  rw [List.filter_cons_of_pos (by simp), List.filter_filter]
  have : (List.filter (fun p => decide (p.1 = key) && !decide (p.1 = key)) l) = [] := by
    apply List.filter_eq_nil_iff.mpr
    intro p hp
    by_cases hk : p.1 = key <;> simp [hk]
  simp_all

/-- C1: for every `jobId`, at most one lease exists at any instant:
`acquireLock` succeeds when no unexpired lease exists, an immediate
second call while the lease is unexpired fails, after `releaseLock` or
after the TTL has elapsed `acquireLock` succeeds again, and the store
never holds more than one lock entry for the id. -/
theorem acquireLock_lease_lifecycle (id : String) (ttl : Nat) (now : Nat) (kv : KV)
    (hfree : kvGetLive kv.strs (LOCK_PREFIX ++ id) now = false) :
    (acquireLock id ttl now kv).1 = true ∧
    (∀ now2, now2 < now + ttl →
      (acquireLock id ttl now2 (acquireLock id ttl now kv).2).1 = false) ∧
    (∀ now2, (acquireLock id ttl now2 (releaseLock id (acquireLock id ttl now kv).2)).1
      = true) ∧
    (∀ now3, now + ttl ≤ now3 →
      (acquireLock id ttl now3 (acquireLock id ttl now kv).2).1 = true) ∧
    ((acquireLock id ttl now kv).2.strs.filter
      (fun p => p.1 == LOCK_PREFIX ++ id)).length ≤ 1 := by
  obtain ⟨hok, hstrs⟩ := acquireLock_free id ttl now kv hfree
  obtain ⟨kv1, hkv1⟩ : ∃ x, (acquireLock id ttl now kv).2 = x := ⟨_, rfl⟩
  rw [hkv1] at hstrs
  refine ⟨hok, ?_, ?_, ?_, ?_⟩
  · intro now2 h2
    rw [hkv1]
    have hlive : kvGetLive kv1.strs (LOCK_PREFIX ++ id) now2 = true := by
      rw [hstrs, kvGetLive_cons_self]
      simpa using h2
    simp [acquireLock, kvSetNxEx, hlive]
  · intro now2
    rw [hkv1]
    have hnone : kvGetLive (releaseLock id kv1).strs (LOCK_PREFIX ++ id) now2 = false := by
      simp [releaseLock, kvGetLive, find?_of_kvDel]
    simp [acquireLock, kvSetNxEx, hnone]
  · intro now3 h3
    rw [hkv1]
    have hdead : kvGetLive kv1.strs (LOCK_PREFIX ++ id) now3 = false := by
      rw [hstrs, kvGetLive_cons_self]
      simpa using by omega
    simp [acquireLock, kvSetNxEx, hdead]
  · rw [hkv1, hstrs]
    exact filter_key_of_kvSetEx kv.strs (LOCK_PREFIX ++ id) (now + ttl)

theorem acquireLock_lease_lifecycle_witness :
    kvGetLive (KV.mk [] []).strs (LOCK_PREFIX ++ "j1") 0 = false ∧
    ((acquireLock "j1" 120 0 (KV.mk [] [])).1 = true ∧
      (acquireLock "j1" 120 60 (acquireLock "j1" 120 0 (KV.mk [] [])).2).1 = false ∧
      (acquireLock "j1" 120 60
        (releaseLock "j1" (acquireLock "j1" 120 0 (KV.mk [] [])).2)).1 = true ∧
      (acquireLock "j1" 120 120 (acquireLock "j1" 120 0 (KV.mk [] [])).2).1 = true) := by
  have h := acquireLock_lease_lifecycle "j1" 120 0 (KV.mk [] []) (by decide)
  exact ⟨by decide, h.1, h.2.1 60 (by decide), h.2.2.1 60, h.2.2.2.1 120 (by decide)⟩


theorem stringify_obj_ne_empty (fields : JsMembers) :
    (stringifyJson (JsVal.jobj fields) == "") = false := by
  simp only [stringifyJson, printJson, beq_eq_false_iff_ne, ne_eq]
  intro h
  have hd := congrArg String.data h
  simp at hd

theorem dequeueLoop_good_head (n : Nat) (s : String) (q : List JsVal) (j : JsVal)
    (hs : (s == "") = false) (hp : jsonParse s = some j)
    (hj : (j.falsy || !j.isObjectType) = false) :
    dequeueLoop (n + 1) (JsVal.jstr s :: q) = (some j, q) := by
  obtain ⟨h1, h2⟩ := Bool.or_eq_false_iff.mp hj
  have h2' : j.isObjectType = true := by simpa using h2
  rw [dequeueLoop.eq_def]
  simp only []
  rw [show JsVal.falsy (JsVal.jstr s) = (s == "") from rfl, hs]
  simp only [Bool.false_eq_true, if_false]
  rw [hp]
  simp only []
  rw [h1, h2']
  simp

/-- C3: with no concurrent actors, `enqueue(J)` on an empty queue
followed by `dequeue()` returns a value structurally equal to `J`:
`enqueueJob` always writes the serialized string, and `dequeueJob`
parses it back losslessly. -/
theorem enqueue_dequeue_roundtrip (fields : JsMembers) (strs : List (String × Nat)) :
    dequeueJob (enqueueJob (JsVal.jobj fields) (KV.mk [] strs))
      = (some (JsVal.jobj fields), KV.mk [] strs) := by
  have hstep : dequeueLoop 10 [JsVal.jstr (stringifyJson (JsVal.jobj fields))]
      = (some (JsVal.jobj fields), []) := by
    show dequeueLoop (9 + 1) _ = _
    exact dequeueLoop_good_head 9 _ [] _ (stringify_obj_ne_empty fields)
      (jsonParse_stringify _) (by simp [JsVal.falsy, JsVal.isObjectType])
  simp only [enqueueJob, dequeueJob, List.nil_append, hstep]

/-- The spec's taxonomy of malformed queue entries: a non-string
payload, an unparsable string, or a string parsing to a falsy or
non-object value.  (Defined from the checks `dequeueJob` performs.) -/
def malformedEntry : JsVal → Bool
  | .jstr s =>
    match jsonParse s with
    | some j => j.falsy || !j.isObjectType
    | none => true
  | _ => true

theorem jsonParse_empty : jsonParse "" = none := by decide

theorem dequeueLoop_skip_one (m : Nat) (e : JsVal) (q : List JsVal)
    (hm : malformedEntry e = true) (ht : e.falsy = false) :
    dequeueLoop (m + 1) (e :: q) = dequeueLoop m q := by
  rw [dequeueLoop.eq_def]
  simp only []
  rw [ht]
  simp only [Bool.false_eq_true, if_false]
  cases e with
  | jstr s =>
    simp only []
    cases hp : jsonParse s with
    | none => simp
    | some j =>
      have hc : (j.falsy || !j.isObjectType) = true := by
        simpa [malformedEntry, hp] using hm
      simp [hc]
  | jnull => rfl
  | jbool b => rfl
  | jnum n => rfl
  | jarr l => rfl
  | jobj l => rfl

theorem dequeueLoop_falsy_head (m : Nat) (e : JsVal) (q : List JsVal)
    (hf : e.falsy = true) :
    dequeueLoop (m + 1) (e :: q) = (none, q) := by
  rw [dequeueLoop.eq_def]
  simp only []
  rw [hf]
  simp

theorem dequeueLoop_skip_bad : ∀ (bad q : List JsVal) (n : Nat),
    (∀ e ∈ bad, malformedEntry e = true ∧ e.falsy = false) →
    dequeueLoop (bad.length + n) (bad ++ q) = dequeueLoop n q := by
  intro bad
  induction bad with
  | nil => intro q n _; simp
  | cons e tl ih =>
    intro q n h
    have he := h e (by simp)
    rw [show (e :: tl).length + n = (tl.length + n) + 1 from by simp; omega,
      List.cons_append, dequeueLoop_skip_one _ e _ he.1 he.2,
      ih q n (fun x hx => h x (by simp [hx]))]

theorem dequeueLoop_drop : ∀ (n : Nat) (q : List JsVal),
    ∃ k, k ≤ n ∧ (dequeueLoop n q).2 = q.drop k := by
  intro n
  induction n with
  | zero => intro q; exact ⟨0, by omega, by simp [dequeueLoop]⟩
  | succ m ih =>
    intro q
    cases q with
    | nil => exact ⟨0, by omega, by simp [dequeueLoop]⟩
    | cons raw q' =>
      by_cases hf : raw.falsy
      · refine ⟨1, by omega, ?_⟩
        rw [dequeueLoop_falsy_head m raw q' hf]
        rfl
      · have hf' : raw.falsy = false := by simpa using hf
        cases raw with
        | jstr s =>
          cases hp : jsonParse s with
          | none =>
            obtain ⟨k, hk, hq⟩ := ih q'
            refine ⟨k + 1, by omega, ?_⟩
            rw [dequeueLoop_skip_one m _ _ (by simp [malformedEntry, hp]) hf', hq]
            rfl
          | some j =>
            by_cases hc : (j.falsy || !j.isObjectType) = true
            · obtain ⟨k, hk, hq⟩ := ih q'
              refine ⟨k + 1, by omega, ?_⟩
              rw [dequeueLoop_skip_one m _ _ (by simp [malformedEntry, hp, hc]) hf', hq]
              rfl
            · refine ⟨1, by omega, ?_⟩
              rw [dequeueLoop_good_head m s q' j (by simpa [JsVal.falsy] using hf') hp
                (by simpa using hc)]
              rfl
        | jnull => simp [JsVal.falsy] at hf
        | jbool b =>
          obtain ⟨k, hk, hq⟩ := ih q'
          refine ⟨k + 1, by omega, ?_⟩
          rw [dequeueLoop_skip_one m _ _ (by simp [malformedEntry]) hf', hq]
          rfl
        | jnum x =>
          obtain ⟨k, hk, hq⟩ := ih q'
          refine ⟨k + 1, by omega, ?_⟩
          rw [dequeueLoop_skip_one m _ _ (by simp [malformedEntry]) hf', hq]
          rfl
        | jarr l =>
          obtain ⟨k, hk, hq⟩ := ih q'
          refine ⟨k + 1, by omega, ?_⟩
          rw [dequeueLoop_skip_one m _ _ (by simp [malformedEntry]) hf', hq]
          rfl
        | jobj l =>
          obtain ⟨k, hk, hq⟩ := ih q'
          refine ⟨k + 1, by omega, ?_⟩
          rw [dequeueLoop_skip_one m _ _ (by simp [malformedEntry]) hf', hq]
          rfl

theorem dequeueLoop_some_props : ∀ (n : Nat) (q : List JsVal) (j : JsVal) (q' : List JsVal),
    dequeueLoop n q = (some j, q') → j.isObjectType = true ∧ j.falsy = false := by
  intro n
  induction n with
  | zero => intro q j q' h; simp [dequeueLoop] at h
  | succ m ih =>
    intro q j q' h
    cases q with
    | nil => simp [dequeueLoop] at h
    | cons raw rest =>
      by_cases hf : raw.falsy = true
      · rw [dequeueLoop_falsy_head m raw rest hf] at h
        simp at h
      · have hf' : raw.falsy = false := by simpa using hf
        cases raw with
        | jstr s =>
          cases hp : jsonParse s with
          | none =>
            rw [dequeueLoop_skip_one m _ _ (by simp [malformedEntry, hp]) hf'] at h
            exact ih rest j q' h
          | some j2 =>
            by_cases hc : (j2.falsy || !j2.isObjectType) = true
            · rw [dequeueLoop_skip_one m _ _ (by simp [malformedEntry, hp, hc]) hf'] at h
              exact ih rest j q' h
            · have hcc : j2.falsy = false ∧ j2.isObjectType = true := by simpa using hc
              rw [dequeueLoop_good_head m s rest j2 (by simpa [JsVal.falsy] using hf') hp
                (by simp [hcc.1, hcc.2])] at h
              simp at h
              obtain ⟨hj, _⟩ := h
              subst hj
              exact ⟨hcc.2, hcc.1⟩
        | jnull => simp [JsVal.falsy] at hf
        | jbool b =>
          rw [dequeueLoop_skip_one m _ _ (by simp [malformedEntry]) hf'] at h
          exact ih rest j q' h
        | jnum x =>
          rw [dequeueLoop_skip_one m _ _ (by simp [malformedEntry]) hf'] at h
          exact ih rest j q' h
        | jarr l =>
          rw [dequeueLoop_skip_one m _ _ (by simp [malformedEntry]) hf'] at h
          exact ih rest j q' h
        | jobj l =>
          rw [dequeueLoop_skip_one m _ _ (by simp [malformedEntry]) hf'] at h
          exact ih rest j q' h

/-- C2 counterexample: a queue holding 9 malformed entries — the first
being the empty string, which is a string that fails to parse, hence
malformed — followed by a well-formed job.  `dequeue()` returns `null`,
not the well-formed job: the falsy check `if (!raw) return null` fires
on the popped empty string before the string/parse checks. -/
theorem dequeueJob_nine_malformed_counterexample :
    (∀ e ∈ (JsVal.jstr "" :: List.replicate 8 (JsVal.jstr "x")), malformedEntry e = true) ∧
    (JsVal.jstr "" :: List.replicate 8 (JsVal.jstr "x")).length = 9 ∧
    jsonParse "\x7b\"jobId\":\"a\"\x7d"
      = some (JsVal.jobj (.cons "jobId" (.jstr "a") .nil)) ∧
    (dequeueJob (KV.mk ((JsVal.jstr "" :: List.replicate 8 (JsVal.jstr "x"))
        ++ [JsVal.jstr "\x7b\"jobId\":\"a\"\x7d"]) [])).1 = none := by
  exact ⟨by decide, by decide, by decide, by decide⟩

/-- C2 (amended): `dequeue()` pops at most 10 entries per call (the
remaining queue is a suffix dropped by at most 10); if the queue holds
9 malformed entries *none of which is falsy* (e.g. none is the empty
string) followed by 1 well-formed job, `dequeue()` returns that job;
and if the first 10 entries are all malformed and non-falsy, it
returns `null`.  (A falsy entry instead ends the call immediately with
`null` — see the counterexample.) -/
theorem dequeueJob_bounded_retry (kv : KV) (bad9 bad10 rest : List JsVal) (s : String)
    (j : JsVal) (h9 : bad9.length = 9)
    (hm9 : ∀ e ∈ bad9, malformedEntry e = true ∧ e.falsy = false)
    (hp : jsonParse s = some j) (hj : (j.falsy || !j.isObjectType) = false)
    (h10 : bad10.length = 10)
    (hm10 : ∀ e ∈ bad10, malformedEntry e = true ∧ e.falsy = false) :
    (∃ k, k ≤ 10 ∧ (dequeueJob kv).2.queue = kv.queue.drop k) ∧
    (dequeueJob (KV.mk (bad9 ++ [JsVal.jstr s]) kv.strs)).1 = some j ∧
    (dequeueJob (KV.mk (bad10 ++ rest) kv.strs)).1 = none := by
  refine ⟨?_, ?_, ?_⟩
  · obtain ⟨k, hk, hq⟩ := dequeueLoop_drop 10 kv.queue
    exact ⟨k, hk, by simp [dequeueJob, hq]⟩
  · have h := dequeueLoop_skip_bad bad9 [JsVal.jstr s] 1 hm9
    rw [h9] at h
    have hs : (s == "") = false := by
      by_cases he : s = ""
      · subst he; rw [jsonParse_empty] at hp; cases hp
      · simpa using he
    simp only [dequeueJob]
    rw [show (10 : Nat) = 9 + 1 from rfl, h,
      show (1 : Nat) = 0 + 1 from rfl, dequeueLoop_good_head 0 s [] j hs hp hj]
  · have h := dequeueLoop_skip_bad bad10 rest 0 hm10
    rw [h10] at h
    simp only [dequeueJob]
    rw [show (10 : Nat) = 10 + 0 from rfl, h]
    simp [dequeueLoop]

theorem dequeueJob_bounded_retry_witness :
    ((∃ k, k ≤ 10 ∧
        (dequeueJob (KV.mk [] [])).2.queue = (KV.mk [] []).queue.drop k) ∧
      (dequeueJob (KV.mk (List.replicate 9 (JsVal.jstr "x")
        ++ [JsVal.jstr "\x7b\"jobId\":\"a\"\x7d"]) [])).1
        = some (JsVal.jobj (.cons "jobId" (.jstr "a") .nil)) ∧
      (dequeueJob (KV.mk (List.replicate 10 (JsVal.jstr "x") ++ [JsVal.jstr "\x7b\"jobId\":\"a\"\x7d"]) [])).1
        = none) := by
  exact dequeueJob_bounded_retry (KV.mk [] []) (List.replicate 9 (JsVal.jstr "x"))
    (List.replicate 10 (JsVal.jstr "x")) [JsVal.jstr "\x7b\"jobId\":\"a\"\x7d"]
    "\x7b\"jobId\":\"a\"\x7d" (JsVal.jobj (.cons "jobId" (.jstr "a") .nil))
    (by decide) (by decide) (by decide) (by decide) (by decide) (by decide)

/-- C4 counterexample: the popped value `0` is not a string, yet
`dequeue()` does not discard-and-continue: it returns `null`
immediately (the falsy check precedes the string check), even though
the next entry is a well-formed job that a continued loop would have
returned (third conjunct). -/
theorem dequeueJob_falsy_nonstring_counterexample :
    (JsVal.jnum 0).isString = false ∧
    (dequeueJob (KV.mk [JsVal.jnum 0, JsVal.jstr "\x7b\"jobId\":\"b\"\x7d"] [])).1 = none ∧
    (dequeueJob (KV.mk [JsVal.jstr "\x7b\"jobId\":\"b\"\x7d"] [])).1
      = some (JsVal.jobj (.cons "jobId" (.jstr "b") .nil)) := by
  exact ⟨by decide, by decide, by decide⟩

/-- C4 (amended): every *truthy* non-string popped value is discarded
and the loop continues with the next pop attempt; a *falsy* popped
value (string or not) ends the call immediately with `null`; and a
value returned as a job is always a parsed object-typed value — in
particular never a raw non-string popped value handed through. -/
theorem dequeueJob_nonstring_discard (m n : Nat) (e : JsVal) (q q' : List JsVal) (j : JsVal)
    (ht : e.falsy = false) (hns : e.isString = false) :
    dequeueLoop (m + 1) (e :: q) = dequeueLoop m q ∧
    (∀ e2 : JsVal, e2.falsy = true → dequeueLoop (m + 1) (e2 :: q) = (none, q)) ∧
    (dequeueLoop n q = (some j, q') → j.isObjectType = true ∧ j.falsy = false) := by
  refine ⟨?_, ?_, ?_⟩
  · have hm : malformedEntry e = true := by
      cases e <;> simp_all [JsVal.isString, malformedEntry]
    exact dequeueLoop_skip_one m e q hm ht
  · intro e2 hf2
    exact dequeueLoop_falsy_head m e2 q hf2
  · exact dequeueLoop_some_props n q j q'

theorem dequeueJob_nonstring_discard_witness :
    (dequeueLoop (3 + 1) (JsVal.jnum 7 :: [JsVal.jstr "\x7b\"jobId\":\"c\"\x7d"])
        = dequeueLoop 3 [JsVal.jstr "\x7b\"jobId\":\"c\"\x7d"]) ∧
    (dequeueLoop (3 + 1) (JsVal.jnull :: [JsVal.jstr "\x7b\"jobId\":\"c\"\x7d"])
        = (none, [JsVal.jstr "\x7b\"jobId\":\"c\"\x7d"])) ∧
    ((JsVal.jobj (.cons "jobId" (.jstr "c") .nil)).isObjectType = true ∧
      (JsVal.jobj (.cons "jobId" (.jstr "c") .nil)).falsy = false) := by
  have h := dequeueJob_nonstring_discard 3 3 (JsVal.jnum 7)
    [JsVal.jstr "\x7b\"jobId\":\"c\"\x7d"] []
    (JsVal.jobj (.cons "jobId" (.jstr "c") .nil)) (by decide) (by decide)
  exact ⟨h.1, h.2.1 JsVal.jnull (by decide), h.2.2 (by decide)⟩

/-- The five HTML replacements fused into a single character map
(provably equal to the source's `replaceAll` chain, whose later passes
never touch the characters introduced by earlier ones). -/
def escHtmlChar (c : Char) : List Char :=
  if c = '&' then ['&', 'a', 'm', 'p', ';']
  else if c = '<' then ['&', 'l', 't', ';']
  else if c = '>' then ['&', 'g', 't', ';']
  else if c = Char.ofNat 34 then ['&', 'q', 'u', 'o', 't', ';']
  else if c = Char.ofNat 39 then ['&', '#', '3', '9', ';']
  else [c]

/-- The `replaceAll` chain of `escapeHtml`, on character lists. -/
def escChain (l : List Char) : List Char :=
  replaceAllChar (Char.ofNat 39) ['&', '#', '3', '9', ';']
    (replaceAllChar (Char.ofNat 34) ['&', 'q', 'u', 'o', 't', ';']
      (replaceAllChar '>' ['&', 'g', 't', ';']
        (replaceAllChar '<' ['&', 'l', 't', ';']
          (replaceAllChar '&' ['&', 'a', 'm', 'p', ';'] l))))

theorem escapeHtml_eq_chain (v : Option JsVal) :
    (escapeHtml v).data
      = escChain (if jsFalsyU v then "" else jsToStr ((v.getD .jnull))).data := by
  rfl

theorem replaceAllChar_append (n : Char) (r xs ys : List Char) :
    replaceAllChar n r (xs ++ ys) = replaceAllChar n r xs ++ replaceAllChar n r ys := by
  simp [replaceAllChar]

theorem escChain_append (xs ys : List Char) :
    escChain (xs ++ ys) = escChain xs ++ escChain ys := by
  simp [escChain, replaceAllChar_append]

theorem escChain_single (c : Char) : escChain [c] = escHtmlChar c := by
  by_cases h1 : c = '&'
  · subst h1; decide
  by_cases h2 : c = '<'
  · subst h2; decide
  by_cases h3 : c = '>'
  · subst h3; decide
  by_cases h4 : c = Char.ofNat 34
  · subst h4; decide
  by_cases h5 : c = Char.ofNat 39
  · subst h5; decide
  simp [escChain, escHtmlChar, replaceAllChar, h1, h2, h3, h4, h5]

theorem escChain_flatMap : ∀ l : List Char, escChain l = l.flatMap escHtmlChar := by
  intro l
  induction l with
  | nil => decide
  | cons c tl ih =>
    rw [show (c :: tl) = [c] ++ tl from rfl, escChain_append, escChain_single, ih]
    simp

/-- The tails of the five entities `&amp; &lt; &gt; &quot; &#39;`. -/
def entityTails : List (List Char) :=
  [['a', 'm', 'p', ';'], ['l', 't', ';'], ['g', 't', ';'],
   ['q', 'u', 'o', 't', ';'], ['#', '3', '9', ';']]

/-- Every `&` in the list is immediately followed by one of the five
entity tails. -/
def ampOk : List Char → Bool
  | [] => true
  | c :: tl =>
    if c = '&' then
      (entityTails.any (fun t => tl.take t.length == t)) && ampOk tl
    else ampOk tl

theorem take_append_self (t rest : List Char) :
    ((t ++ rest).take t.length == t) = true := by
  simp [List.take_left]

theorem escChain_no_specials : ∀ (l : List Char) (c : Char), c ∈ escChain l →
    c ≠ '<' ∧ c ≠ '>' ∧ c ≠ Char.ofNat 34 ∧ c ≠ Char.ofNat 39 := by
  intro l c hc
  rw [escChain_flatMap] at hc
  obtain ⟨d, _, hd⟩ := List.mem_flatMap.mp hc
  by_cases h1 : d = '&'
  · subst h1; simp [escHtmlChar] at hd
    rcases hd with h | h | h | h | h <;> subst h <;> refine ⟨by decide, by decide, by decide, by decide⟩
  by_cases h2 : d = '<'
  · subst h2; simp [escHtmlChar] at hd
    rcases hd with h | h | h | h <;> subst h <;> refine ⟨by decide, by decide, by decide, by decide⟩
  by_cases h3 : d = '>'
  · subst h3; simp [escHtmlChar] at hd
    rcases hd with h | h | h | h <;> subst h <;> refine ⟨by decide, by decide, by decide, by decide⟩
  by_cases h4 : d = Char.ofNat 34
  · subst h4; simp [escHtmlChar] at hd
    rcases hd with h | h | h | h | h | h <;> subst h <;> refine ⟨by decide, by decide, by decide, by decide⟩
  by_cases h5 : d = Char.ofNat 39
  · subst h5; simp [escHtmlChar] at hd
    rcases hd with h | h | h | h | h <;> subst h <;> refine ⟨by decide, by decide, by decide, by decide⟩
  · simp [escHtmlChar, h1, h2, h3, h4, h5] at hd
    subst hd
    exact ⟨h2, h3, h4, h5⟩

theorem ampOk_esc_append : ∀ (c : Char) (rest : List Char), ampOk rest = true →
    ampOk (escHtmlChar c ++ rest) = true := by
  intro c rest h
  by_cases h1 : c = '&'
  · subst h1
    simp [escHtmlChar, ampOk, entityTails, h]
  by_cases h2 : c = '<'
  · subst h2
    simp [escHtmlChar, ampOk, entityTails, h]
  by_cases h3 : c = '>'
  · subst h3
    simp [escHtmlChar, ampOk, entityTails, h]
  by_cases h4 : c = Char.ofNat 34
  · subst h4
    simp [escHtmlChar, ampOk, entityTails, h]
  by_cases h5 : c = Char.ofNat 39
  · subst h5
    simp [escHtmlChar, ampOk, entityTails, h]
  · simp [escHtmlChar, h1, h2, h3, h4, h5, ampOk, h]

theorem escChain_ampOk : ∀ l : List Char, ampOk (escChain l) = true := by
  intro l
  induction l with
  | nil => decide
  | cons c tl ih =>
    rw [show (c :: tl) = [c] ++ tl from rfl, escChain_append, escChain_single]
    exact ampOk_esc_append c (escChain tl) ih

/-- C10: for every input value, `escapeHtml` returns a string with no
occurrence of `<`, `>`, `"` or `'`, in which every `&` begins one of
the five entities `&amp; &lt; &gt; &quot; &#39;`; and for `null` or
`undefined` input it returns the empty string. -/
theorem escapeHtml_output_safe (v : Option JsVal) (c : Char) :
    (escapeHtml none = "" ∧ escapeHtml (some JsVal.jnull) = "") ∧
    (c ∈ (escapeHtml v).data →
      c ≠ '<' ∧ c ≠ '>' ∧ c ≠ Char.ofNat 34 ∧ c ≠ Char.ofNat 39) ∧
    ampOk (escapeHtml v).data = true := by
  refine ⟨⟨by decide, by decide⟩, ?_, ?_⟩
  · intro hc
    rw [escapeHtml_eq_chain] at hc
    exact escChain_no_specials _ c hc
  · rw [escapeHtml_eq_chain]
    exact escChain_ampOk _

theorem escapeHtml_output_safe_witness :
    ('&' ∈ (escapeHtml (some (JsVal.jstr "a&b<c"))).data ∧
      '&' ≠ '<' ∧ '&' ≠ '>' ∧ '&' ≠ Char.ofNat 34 ∧ '&' ≠ Char.ofNat 39) ∧
    ampOk (escapeHtml (some (JsVal.jstr "a&b<c"))).data = true := by
  have h := escapeHtml_output_safe (some (JsVal.jstr "a&b<c")) '&'
  have hdata : (escapeHtml (some (JsVal.jstr "a&b<c"))).data
      = escChain ("a&b<c" : String).data := by
    rw [escapeHtml_eq_chain]
    simp [jsFalsyU, JsVal.falsy, jsToStr]
  have hmem : '&' ∈ (escapeHtml (some (JsVal.jstr "a&b<c"))).data := by
    rw [hdata]
    decide
  exact ⟨⟨hmem, h.2.1 hmem⟩, h.2.2⟩

/-- The ids reported by successful external-processing events in a
worker trace. -/
def successIds (ops : List WOp) : List (Option JsVal) :=
  ops.filterMap (fun op => match op with
    | .extProcess job true => some (job.jget "jobId")
    | _ => none)

/-- The dequeue events of a worker trace. -/
def dequeues (ops : List WOp) : List (Option JsVal) :=
  ops.filterMap (fun op => match op with
    | .dequeue r => some r
    | _ => none)

/-- The completion-ledger writes of a worker trace. -/
def doneKeys (ops : List WOp) : List String :=
  ops.filterMap (fun op => match op with
    | .markDone k => some k
    | _ => none)

theorem workerIter_shape (proc : JsVal → Bool) (now : Nat) (kv : KV) :
    (workerIter proc now kv).kv.queue = (dequeueLoop 10 kv.queue).2 ∧
    (workerIter proc now kv).brk = (dequeueLoop 10 kv.queue).1.isNone ∧
    dequeues (workerIter proc now kv).ops = [(dequeueLoop 10 kv.queue).1] := by
  rcases hdq : (dequeueLoop 10 kv.queue).1 with _ | job
  · refine ⟨?_, ?_, ?_⟩ <;>
      simp [workerIter, dequeueJob, hdq, dequeues]
  · refine ⟨?_, ?_, ?_⟩ <;>
      simp only [workerIter, dequeueJob, hdq] <;>
      split <;>
      try split
    all_goals simp [dequeues, markDone, releaseLock, acquireLock]

/-- C5: in every worker iteration that acquires the lease, the trace
ends with the release of exactly that lease key — regardless of whether
the external processing call succeeds or raises; in an iteration whose
lease acquisition fails, no release at all is performed. -/
theorem workerIter_release_discipline (proc : JsVal → Bool) (now : Nat) (kv : KV)
    (k k2 : String) :
    (WOp.acquire k true ∈ (workerIter proc now kv).ops →
      ∃ pre, (workerIter proc now kv).ops = pre ++ [WOp.release k]) ∧
    (WOp.acquire k false ∈ (workerIter proc now kv).ops →
      WOp.release k2 ∉ (workerIter proc now kv).ops) := by
  rcases hdq : (dequeueJob kv).1 with _ | job
  · constructor <;> (intro hmem; simp [workerIter, hdq] at hmem)
  · simp only [workerIter, hdq]
    split
    · constructor
      · intro hmem
        simp at hmem
      · intro _
        simp
    · split
      · constructor
        · intro hmem
          simp at hmem
          exact ⟨[WOp.dequeue (some job),
            WOp.acquire (LOCK_PREFIX ++ jsToStrU (job.jget "jobId")) true,
            WOp.extProcess job true,
            WOp.markDone (DONE_PREFIX ++ jsToStrU (job.jget "jobId"))], by rw [hmem]; rfl⟩
        · intro hmem
          simp at hmem
      · constructor
        · intro hmem
          simp at hmem
          exact ⟨[WOp.dequeue (some job),
            WOp.acquire (LOCK_PREFIX ++ jsToStrU (job.jget "jobId")) true,
            WOp.extProcess job false], by rw [hmem]; rfl⟩
        · intro hmem
          simp at hmem

theorem workerIter_release_discipline_witness :
    (WOp.acquire (LOCK_PREFIX ++ "undefined") true
      ∈ (workerIter (fun _ => true) 0 (KV.mk [JsVal.jstr "\x7b\"x\":null\x7d"] [])).ops) ∧
    (∃ pre, (workerIter (fun _ => true) 0 (KV.mk [JsVal.jstr "\x7b\"x\":null\x7d"] [])).ops
      = pre ++ [WOp.release (LOCK_PREFIX ++ "undefined")]) := by
  have h := workerIter_release_discipline (fun _ => true) 0
    (KV.mk [JsVal.jstr "\x7b\"x\":null\x7d"] []) (LOCK_PREFIX ++ "undefined") "k2"
  have hmem : WOp.acquire (LOCK_PREFIX ++ "undefined") true
      ∈ (workerIter (fun _ => true) 0 (KV.mk [JsVal.jstr "\x7b\"x\":null\x7d"] [])).ops := by
    decide
  exact ⟨hmem, h.1 hmem⟩

theorem workerIter_success_spec (proc : JsVal → Bool) (now : Nat) (kv : KV) :
    successIds (workerIter proc now kv).ops
      = (match (workerIter proc now kv).pushed with
          | some x => [x]
          | none => []) ∧
    doneKeys (workerIter proc now kv).ops
      = (match (workerIter proc now kv).pushed with
          | some x => [DONE_PREFIX ++ jsToStrU x]
          | none => []) ∧
    ((workerIter proc now kv).brk = true → (workerIter proc now kv).pushed = none) := by
  rcases hdq : (dequeueJob kv).1 with _ | job
  · refine ⟨?_, ?_, ?_⟩ <;> simp [workerIter, hdq, successIds, doneKeys]
  · simp only [workerIter, hdq]
    split
    · refine ⟨?_, ?_, ?_⟩ <;> simp [successIds, doneKeys]
    · split
      · refine ⟨?_, ?_, ?_⟩ <;> simp [successIds, doneKeys]
      · refine ⟨?_, ?_, ?_⟩ <;> simp [successIds, doneKeys]

theorem successIds_append (a b : List WOp) :
    successIds (a ++ b) = successIds a ++ successIds b := by
  simp [successIds, List.filterMap_append]

theorem doneKeys_append (a b : List WOp) :
    doneKeys (a ++ b) = doneKeys a ++ doneKeys b := by
  simp [doneKeys, List.filterMap_append]

theorem dequeues_append (a b : List WOp) :
    dequeues (a ++ b) = dequeues a ++ dequeues b := by
  simp [dequeues, List.filterMap_append]

theorem workerLoop_processed_spec (proc : JsVal → Bool) (now : Nat) : ∀ (n : Nat) (kv : KV),
    (workerLoop proc now n kv).2.1 = successIds (workerLoop proc now n kv).2.2 ∧
    doneKeys (workerLoop proc now n kv).2.2
      = (workerLoop proc now n kv).2.1.map (fun x => DONE_PREFIX ++ jsToStrU x) := by
  intro n
  induction n with
  | zero => intro kv; simp [workerLoop, successIds, doneKeys]
  | succ m ih =>
    intro kv
    obtain ⟨h1, h2, h3⟩ := workerIter_success_spec proc now kv
    simp only [workerLoop]
    split
    · rename_i hbrk
      rw [h3 hbrk] at h1 h2
      simp at h1 h2
      simp [h1, h2]
    · obtain ⟨iha, ihb⟩ := ih (workerIter proc now kv).kv
      cases hpush : (workerIter proc now kv).pushed with
      | none =>
        rw [hpush] at h1 h2
        simp at h1 h2
        constructor
        · simp only [hpush, successIds_append, h1]
          simpa using iha
        · simp only [hpush, doneKeys_append, h2]
          simpa using ihb
      | some x =>
        rw [hpush] at h1 h2
        simp at h1 h2
        constructor
        · simp only [hpush, successIds_append, h1]
          simpa using iha
        · simp only [hpush, doneKeys_append, h2]
          simp
          simpa using ihb

theorem workerLoop_queue_indep (proc1 proc2 : JsVal → Bool) (now1 now2 : Nat) :
    ∀ (n : Nat) (kv1 kv2 : KV), kv1.queue = kv2.queue →
    (workerLoop proc1 now1 n kv1).1.queue = (workerLoop proc2 now2 n kv2).1.queue ∧
    dequeues (workerLoop proc1 now1 n kv1).2.2
      = dequeues (workerLoop proc2 now2 n kv2).2.2 := by
  intro n
  induction n with
  | zero => intro kv1 kv2 h; simpa [workerLoop, dequeues] using h
  | succ m ih =>
    intro kv1 kv2 h
    obtain ⟨s1a, s1b, s1c⟩ := workerIter_shape proc1 now1 kv1
    obtain ⟨s2a, s2b, s2c⟩ := workerIter_shape proc2 now2 kv2
    rw [h] at s1a s1b s1c
    simp only [workerLoop]
    by_cases hbrk : (workerIter proc1 now1 kv1).brk = true
    · have hbrk2 : (workerIter proc2 now2 kv2).brk = true := by rw [s2b, ← s1b, hbrk]
      rw [if_pos hbrk, if_pos hbrk2]
      exact ⟨by rw [s1a, s2a], by rw [s1c, s2c]⟩
    · have hbrk2 : ¬(workerIter proc2 now2 kv2).brk = true := by
        rw [s2b, ← s1b]; exact hbrk
      rw [if_neg hbrk, if_neg hbrk2]
      obtain ⟨iha, ihb⟩ := ih (workerIter proc1 now1 kv1).kv (workerIter proc2 now2 kv2).kv
        (by rw [s1a, s2a])
      exact ⟨iha, by rw [dequeues_append, dequeues_append, s1c, s2c, ihb]⟩

/-- C6: the list the worker driver returns is exactly the ids of the
jobs whose external processing succeeded, in order (first conjunct);
each of those was marked done in the completion ledger (second
conjunct); and processing outcomes do not influence which jobs are
dequeued — two runs over the same queue with arbitrarily different
processing outcomes dequeue exactly the same entries and leave the
same queue, so one job's failure does not abort the remaining
iterations (third and fourth conjuncts). -/
theorem workerLoop_processed_exact (proc proc1 proc2 : JsVal → Bool)
    (now now1 now2 n : Nat) (kv kv1 kv2 : KV) (h : kv1.queue = kv2.queue) :
    ((workerLoop proc now n kv).2.1 = successIds (workerLoop proc now n kv).2.2 ∧
      doneKeys (workerLoop proc now n kv).2.2
        = (workerLoop proc now n kv).2.1.map (fun x => DONE_PREFIX ++ jsToStrU x)) ∧
    ((workerLoop proc1 now1 n kv1).1.queue = (workerLoop proc2 now2 n kv2).1.queue ∧
      dequeues (workerLoop proc1 now1 n kv1).2.2
        = dequeues (workerLoop proc2 now2 n kv2).2.2) :=
  ⟨workerLoop_processed_spec proc now n kv, workerLoop_queue_indep proc1 proc2 now1 now2 n kv1 kv2 h⟩

theorem workerLoop_processed_exact_witness :
    ((workerLoop (fun _ => true) 0 2 (KV.mk [JsVal.jstr "\x7b\"x\":null\x7d"] [])).2.1
        = successIds (workerLoop (fun _ => true) 0 2
            (KV.mk [JsVal.jstr "\x7b\"x\":null\x7d"] [])).2.2 ∧
      doneKeys (workerLoop (fun _ => true) 0 2
          (KV.mk [JsVal.jstr "\x7b\"x\":null\x7d"] [])).2.2
        = (workerLoop (fun _ => true) 0 2
            (KV.mk [JsVal.jstr "\x7b\"x\":null\x7d"] [])).2.1.map
              (fun x => DONE_PREFIX ++ jsToStrU x)) ∧
    ((workerLoop (fun _ => true) 0 2 (KV.mk [JsVal.jstr "\x7b\"x\":null\x7d"] [])).1.queue
        = (workerLoop (fun _ => false) 7 2
            (KV.mk [JsVal.jstr "\x7b\"x\":null\x7d"] [])).1.queue ∧
      dequeues (workerLoop (fun _ => true) 0 2
          (KV.mk [JsVal.jstr "\x7b\"x\":null\x7d"] [])).2.2
        = dequeues (workerLoop (fun _ => false) 7 2
            (KV.mk [JsVal.jstr "\x7b\"x\":null\x7d"] [])).2.2) :=
  workerLoop_processed_exact (fun _ => true) (fun _ => true) (fun _ => false) 0 0 7 2
    (KV.mk [JsVal.jstr "\x7b\"x\":null\x7d"] [])
    (KV.mk [JsVal.jstr "\x7b\"x\":null\x7d"] [])
    (KV.mk [JsVal.jstr "\x7b\"x\":null\x7d"] []) rfl

/-- C7 counterexample: a non-numeric `maxJobs` such as `"abc"` is not
clamped into 1–5: `Number("abc")` is NaN, `Math.max(1, Math.min(5,
NaN))` is NaN, every loop comparison `i < NaN` is false, and the driver
performs zero dequeue iterations even with a non-empty queue —
refuting "at least one dequeue iteration" for non-numeric input. -/
theorem clampMaxJobs_nan_counterexample :
    clampMaxJobs (some (JsVal.jstr "abc")) = none ∧
    jsLoopCount (clampMaxJobs (some (JsVal.jstr "abc"))) = 0 ∧
    (workerHandler (fun _ => true) 0 (some (JsVal.jstr "abc"))
      (KV.mk [JsVal.jstr "\x7b\"x\":null\x7d"] [])).2.2 = [] := by
  refine ⟨by decide, by decide, by decide⟩

theorem workerLoop_dequeue_count (proc : JsVal → Bool) (now : Nat) : ∀ (n : Nat) (kv : KV),
    (dequeues (workerLoop proc now n kv).2.2).length ≤ n ∧
    (1 ≤ n → 1 ≤ (dequeues (workerLoop proc now n kv).2.2).length) := by
  intro n
  induction n with
  | zero => intro kv; simp [workerLoop, dequeues]
  | succ m ih =>
    intro kv
    obtain ⟨_, _, s1c⟩ := workerIter_shape proc now kv
    simp only [workerLoop]
    split
    · rw [s1c]
      simp
    · obtain ⟨iha, _⟩ := ih (workerIter proc now kv).kv
      rw [dequeues_append, s1c]
      constructor
      · simp
        omega
      · intro _
        simp

/-- C7 (amended): whenever the caller-supplied `maxJobs` coerces to an
actual number (absent, numeric, boolean, or a numeric string — anything
but NaN), the driver clamps it into the range [1, 5] and the loop
performs between 1 and 5 dequeue iterations.  A value coercing to NaN
instead yields zero iterations (see the counterexample). -/
theorem clampMaxJobs_range (raw : Option JsVal) (q : ℚ)
    (h : clampMaxJobs raw = some q) :
    (1 ≤ q ∧ q ≤ 5) ∧
    (1 ≤ jsLoopCount (clampMaxJobs raw) ∧ jsLoopCount (clampMaxJobs raw) ≤ 5) ∧
    (∀ (proc : JsVal → Bool) (now : Nat) (kv : KV),
      1 ≤ (dequeues (workerHandler proc now raw kv).2.2).length ∧
      (dequeues (workerHandler proc now raw kv).2.2).length ≤ 5) := by
  have hb : 1 ≤ q ∧ q ≤ 5 := by
    simp only [clampMaxJobs] at h
    rcases hco : (match raw with
      | none => some (1 : ℚ)
      | some v => if v.falsy = true then some 1 else toNumber v) with _ | c
    · rw [hco] at h
      simp [jsMin, jsMax] at h
    · rw [hco] at h
      simp only [jsMin, jsMax, Option.some.injEq] at h
      subst h
      exact ⟨le_max_left 1 _, max_le (by norm_num) (min_le_left 5 c)⟩
  have hcount : 1 ≤ jsLoopCount (clampMaxJobs raw) ∧ jsLoopCount (clampMaxJobs raw) ≤ 5 := by
    rw [h]
    simp only [jsLoopCount]
    rw [if_neg (by push_neg; linarith [hb.1])]
    have hceil1 : (1 : ℤ) ≤ ⌈q⌉ := by
      have hle := Int.le_ceil q
      have h1 : (1 : ℚ) ≤ (⌈q⌉ : ℚ) := le_trans hb.1 hle
      exact_mod_cast h1
    have hceil5 : ⌈q⌉ ≤ (5 : ℤ) := Int.ceil_le.mpr (by exact_mod_cast hb.2)
    omega
  refine ⟨hb, hcount, ?_⟩
  intro proc now kv
  have hl := workerLoop_dequeue_count proc now (jsLoopCount (clampMaxJobs raw)) kv
  exact ⟨hl.2 hcount.1, le_trans hl.1 hcount.2⟩

theorem clampMaxJobs_range_witness :
    clampMaxJobs (some (JsVal.jnum 3)) = some 3 ∧
    ((1 : ℚ) ≤ 3 ∧ (3 : ℚ) ≤ 5) ∧
    (1 ≤ jsLoopCount (clampMaxJobs (some (JsVal.jnum 3))) ∧
      jsLoopCount (clampMaxJobs (some (JsVal.jnum 3))) ≤ 5) ∧
    (1 ≤ (dequeues (workerHandler (fun _ => true) 0 (some (JsVal.jnum 3))
        (KV.mk [] [])).2.2).length ∧
      (dequeues (workerHandler (fun _ => true) 0 (some (JsVal.jnum 3))
        (KV.mk [] [])).2.2).length ≤ 5) := by
  have h := clampMaxJobs_range (some (JsVal.jnum 3)) 3 (by decide)
  exact ⟨by decide, h.1, h.2.1, h.2.2 (fun _ => true) 0 (KV.mk [] [])⟩

/-- The identity payload the webhook handler computes from a request
body: destructuring defaults applied to `company`, `subject`,
`description` and `vip`; `ticketId` has no default (a missing one is
modelled as `null`, which the handler rejects before `jobIdFor` is
reached). -/
def payloadOfBody (body : Option JsVal) : JobIdPayload :=
  ⟨((jsBodyOr body).jget "ticketId").getD .jnull,
    ((jsBodyOr body).jget "company").getD (.jstr ""),
    ((jsBodyOr body).jget "subject").getD (.jstr ""),
    ((jsBodyOr body).jget "description").getD (.jstr ""),
    ((jsBodyOr body).jget "vip").getD (.jbool false)⟩

/-- C8: the job identity is a deterministic function of the job's
logical content: any two request bodies whose five defaulted identity
fields agree — whatever else differs (extra fields, timing) — yield
the same `jobIdFor` output, for every hash function; and the handler
stamps exactly this identity into the job it enqueues. -/
theorem jobIdFor_content_deterministic (sha256 : String → String)
    (bridgeKey : String) (now : Nat) (req : WebhookRequest) (kv : KV)
    (b1 b2 : Option JsVal) (j : JsVal)
    (heq : payloadOfBody b1 = payloadOfBody b2)
    (henq : HOp.enqueue j ∈ (webhookHandler sha256 bridgeKey now req kv).ops) :
    jobIdFor sha256 (payloadOfBody b1) = jobIdFor sha256 (payloadOfBody b2) ∧
    j.jget "jobId" = some (.jstr (jobIdFor sha256 (payloadOfBody req.body))) := by
  refine ⟨by rw [heq], ?_⟩
  simp only [webhookHandler] at henq
  split at henq
  · simp at henq
  · split at henq
    · simp at henq
    · split at henq
      · simp at henq
      · split at henq
        · simp at henq
        · simp at henq
          subst henq
          simp [JsVal.jget, JsMembers.find?, payloadOfBody]

theorem jobIdFor_content_deterministic_witness :
    payloadOfBody (some (JsVal.jobj (.cons "ticketId" (.jnum 7)
        (.cons "company" (.jstr "acme") (.cons "extra" (.jstr "ignored") .nil)))))
      = payloadOfBody (some (JsVal.jobj (.cons "company" (.jstr "acme")
          (.cons "ticketId" (.jnum 7) .nil)))) ∧
    HOp.enqueue (JsVal.jobj (.cons "jobId"
        (.jstr (jobIdFor id (payloadOfBody (some (JsVal.jobj (.cons "ticketId" (.jnum 7)
          (.cons "company" (.jstr "acme") .nil)))))))
      (.cons "ticketId" (.jnum 7) (.cons "company" (.jstr "acme")
        (.cons "subject" (.jstr "") (.cons "description" (.jstr "")
          (.cons "vip" (.jbool false) (.cons "createdAt" (.jnum 0) .nil))))))))
      ∈ (webhookHandler id "k" 0
          (WebhookRequest.mk "POST" [("x-bridge-key", "k")]
            (some (JsVal.jobj (.cons "ticketId" (.jnum 7)
              (.cons "company" (.jstr "acme") .nil))))) (KV.mk [] [])).ops ∧
    jobIdFor id (payloadOfBody (some (JsVal.jobj (.cons "ticketId" (.jnum 7)
        (.cons "company" (.jstr "acme") (.cons "extra" (.jstr "ignored") .nil))))))
      = jobIdFor id (payloadOfBody (some (JsVal.jobj (.cons "company" (.jstr "acme")
          (.cons "ticketId" (.jnum 7) .nil))))) := by
  have heq : payloadOfBody (some (JsVal.jobj (.cons "ticketId" (.jnum 7)
        (.cons "company" (.jstr "acme") (.cons "extra" (.jstr "ignored") .nil)))))
      = payloadOfBody (some (JsVal.jobj (.cons "company" (.jstr "acme")
          (.cons "ticketId" (.jnum 7) .nil)))) := by decide
  have hmem : HOp.enqueue (JsVal.jobj (.cons "jobId"
        (.jstr (jobIdFor id (payloadOfBody (some (JsVal.jobj (.cons "ticketId" (.jnum 7)
          (.cons "company" (.jstr "acme") .nil)))))))
      (.cons "ticketId" (.jnum 7) (.cons "company" (.jstr "acme")
        (.cons "subject" (.jstr "") (.cons "description" (.jstr "")
          (.cons "vip" (.jbool false) (.cons "createdAt" (.jnum 0) .nil))))))))
      ∈ (webhookHandler id "k" 0
          (WebhookRequest.mk "POST" [("x-bridge-key", "k")]
            (some (JsVal.jobj (.cons "ticketId" (.jnum 7)
              (.cons "company" (.jstr "acme") .nil))))) (KV.mk [] [])).ops := by
    simp [webhookHandler, headerVal, isDone, kvGetLive, jsBodyOr, JsVal.falsy, jsFalsyU,
      JsVal.jget, JsMembers.find?, jobIdFor, payloadOfBody]
  have h := jobIdFor_content_deterministic id "k" 0
    (WebhookRequest.mk "POST" [("x-bridge-key", "k")]
      (some (JsVal.jobj (.cons "ticketId" (.jnum 7) (.cons "company" (.jstr "acme") .nil)))))
    (KV.mk [] [])
    (some (JsVal.jobj (.cons "ticketId" (.jnum 7)
      (.cons "company" (.jstr "acme") (.cons "extra" (.jstr "ignored") .nil)))))
    (some (JsVal.jobj (.cons "company" (.jstr "acme") (.cons "ticketId" (.jnum 7) .nil))))
    _ heq hmem
  exact ⟨heq, hmem, h.1⟩

/-- C9: the webhook handler enqueues nothing when validation fails:
a non-POST request gets status 405; a POST whose `x-bridge-key` header
differs from the configured bridge key gets 401; a POST without a
truthy `ticketId` or a truthy (defaulted) `company` gets 400 — so
`ticketId: 0` or `company: ""` are rejected; in all three cases the
store is untouched and the operation trace is empty (no `isDone`
check, no `enqueueJob`). -/
theorem webhookHandler_rejects_without_enqueue (sha256 : String → String)
    (bridgeKey : String) (now : Nat) (req : WebhookRequest) (kv : KV) :
    (req.method ≠ "POST" →
      webhookHandler sha256 bridgeKey now req kv = ⟨405, kv, []⟩) ∧
    (req.method = "POST" → headerVal req "x-bridge-key" ≠ some bridgeKey →
      webhookHandler sha256 bridgeKey now req kv = ⟨401, kv, []⟩) ∧
    (req.method = "POST" → headerVal req "x-bridge-key" = some bridgeKey →
      (jsFalsyU ((jsBodyOr req.body).jget "ticketId")
        || (((jsBodyOr req.body).jget "company").getD (.jstr "")).falsy) = true →
      webhookHandler sha256 bridgeKey now req kv = ⟨400, kv, []⟩) := by
  refine ⟨?_, ?_, ?_⟩
  · intro hm
    simp [webhookHandler, hm]
  · intro hm hk
    simp [webhookHandler, hm, hk]
  · intro hm hk hval
    simp [webhookHandler, hm, hk, hval]

theorem webhookHandler_rejects_without_enqueue_witness :
    (webhookHandler id "k" 0 (WebhookRequest.mk "GET" [] none) (KV.mk [] [])
      = ⟨405, KV.mk [] [], []⟩) ∧
    (webhookHandler id "k" 0 (WebhookRequest.mk "POST" [] none) (KV.mk [] [])
      = ⟨401, KV.mk [] [], []⟩) ∧
    (webhookHandler id "k" 0 (WebhookRequest.mk "POST" [("x-bridge-key", "k")]
        (some (JsVal.jobj (.cons "ticketId" (.jnum 0)
          (.cons "company" (.jstr "acme") .nil))))) (KV.mk [] [])
      = ⟨400, KV.mk [] [], []⟩) := by
  refine ⟨?_, ?_, ?_⟩
  · exact (webhookHandler_rejects_without_enqueue id "k" 0
      (WebhookRequest.mk "GET" [] none) (KV.mk [] [])).1 (by decide)
  · exact (webhookHandler_rejects_without_enqueue id "k" 0
      (WebhookRequest.mk "POST" [] none) (KV.mk [] [])).2.1 rfl (by decide)
  · exact (webhookHandler_rejects_without_enqueue id "k" 0
      (WebhookRequest.mk "POST" [("x-bridge-key", "k")]
        (some (JsVal.jobj (.cons "ticketId" (.jnum 0)
          (.cons "company" (.jstr "acme") .nil))))) (KV.mk [] [])).2.2 rfl
      (by decide) (by decide)

end GuruFS
